import Mathlib

/-!
Shallow embedding, in Lean 4, of the diff-to-review core of the
`gitlab-ai-reviewer` repository, together with theorems settling the
frozen claims about it.

The JavaScript sources are embedded over `Str := List Char`:

* `src/services/ai-service.js` : `parseReview`, `extractValue`,
  `extractSummary` (the AI response parser).
* `src/utils/diff-parser.js` : `parseFileChange`, `shouldSkipFile`,
  `detectLanguage`, `isLanguageSupported`, `getChangeType`, `cleanDiff`,
  `countAdditions`, `countDeletions`, `extractAddedLines`.
* `src/reviewer.js` : the per-file review loop of `reviewMergeRequest`
  (as `reviewFiles`) and `generateReviewComment`.

JavaScript strings become `Str`; JS numbers that can be `NaN` become
`JSNum`; `null` becomes `none`; a thrown exception becomes `Except.error`.
-/

namespace Reviewer

/-- A JavaScript string, modelled as its list of characters. -/
abbrev Str := List Char

/-- The whitespace characters stripped by JS `String.prototype.trim`
(the ASCII ones; Unicode space separators are not modelled since no
configuration or marker string of the program contains them). -/
def isWS (c : Char) : Bool :=
  c == ' ' || c == '\t' || c == '\n' || c == '\r' || c == '\x0b' || c == '\x0c'

/-- Left part of JS `trim`. -/
def trimLeft (s : Str) : Str := s.dropWhile isWS

/-- Right part of JS `trim`. -/
def trimRight : Str → Str
  | [] => []
  | c :: cs =>
    match trimRight cs with
    | [] => if isWS c then [] else [c]
    | r => c :: r

/-- JS `String.prototype.trim`. -/
def trim (s : Str) : Str := trimRight (trimLeft s)

/-- JS `text.split('\n')`. -/
def splitNl (s : Str) : List Str := s.splitOn '\n'

/-- JS `lines.join('\n')`. -/
def joinNl (ls : List Str) : Str := List.intercalate ['\n'] ls

/-- JS `parts.join(' ')`. -/
def joinSpace (ls : List Str) : Str := List.intercalate [' '] ls

/-- A JavaScript number as produced by `parseInt`: an integer or `NaN`. -/
inductive JSNum where
  | num (n : Int)
  | nan
deriving DecidableEq, Repr

/-- Value of a decimal digit character. -/
def digitVal (c : Char) : Nat := c.toNat - 48

/-- Value of a string of decimal digits (most significant first). -/
def digitsVal (s : Str) : Nat := s.foldl (fun acc c => 10 * acc + digitVal c) 0

/-- JS hex-digit test (for `parseInt`'s automatic `0x` radix detection). -/
def isHexDigit (c : Char) : Bool :=
  c.isDigit || ('a' ≤ c && c ≤ 'f') || ('A' ≤ c && c ≤ 'F')

/-- Value of a hexadecimal digit character. -/
def hexDigitVal (c : Char) : Nat :=
  if c.isDigit then c.toNat - 48
  else if 'a' ≤ c && c ≤ 'f' then c.toNat - 87
  else c.toNat - 55

/-- Value of a string of hexadecimal digits. -/
def hexDigitsVal (s : Str) : Nat := s.foldl (fun acc c => 16 * acc + hexDigitVal c) 0

/-- Whether the magnitude part starts with the hex prefix `0x`/`0X`
(JS `parseInt`'s automatic radix detection). -/
def isHexPre (r : Str) : Bool :=
  match r with
  | a :: b :: _ => a == '0' && (b == 'x' || b == 'X')
  | _ => false

/-- Magnitude part of JS `parseInt(s)` (after whitespace and sign):
a leading `0x`/`0X` switches to radix 16, otherwise the leading decimal
digits are taken; no digits gives `none` (`NaN`). -/
def jsParseIntMag (r : Str) : Option Nat :=
  if isHexPre r then
    let ds := (r.drop 2).takeWhile isHexDigit
    if ds.isEmpty then none else some (hexDigitsVal ds)
  else
    let ds := r.takeWhile Char.isDigit
    if ds.isEmpty then none else some (digitsVal ds)

/-- JS `parseInt(s)` with no explicit radix: strip leading whitespace,
read an optional sign, then the magnitude; `NaN` when no digits follow. -/
def jsParseInt (s : Str) : JSNum :=
  let s1 := s.dropWhile isWS
  if s1.headD ' ' == '-' then
    match jsParseIntMag s1.tail with
    | some n => .num (-(n : Int))
    | none => .nan
  else if s1.headD ' ' == '+' then
    match jsParseIntMag s1.tail with
    | some n => .num (n : Int)
    | none => .nan
  else
    match jsParseIntMag s1 with
    | some n => .num (n : Int)
    | none => .nan

/-! ### The AI response parser (`ai-service.js`) -/

/-- The `- **Issue Type**:` marker of `parseReview`. -/
def issueTypeMarker : Str := "- **Issue Type**:".data

/-- The `- **Severity**:` marker of `parseReview`. -/
def severityMarker : Str := "- **Severity**:".data

/-- The `- **Line**:` marker of `parseReview`. -/
def lineMarker : Str := "- **Line**:".data

/-- The `- **Description**:` marker of `parseReview`. -/
def descriptionMarker : Str := "- **Description**:".data

/-- The `- **Suggestion**:` marker of `parseReview`. -/
def suggestionMarker : Str := "- **Suggestion**:".data

/-- The `- **Example**:` marker of `parseReview`. -/
def exampleMarker : Str := "- **Example**:".data

/-- The `- **` prefix used by `extractSummary` to detect structured lines. -/
def bulletMarker : Str := "- **".data

/-- `extractValue` of `ai-service.js`: everything after the first `:`
of the line, trimmed; the empty string when the line has no colon. -/
def extractValue : Str → Str
  | [] => []
  | c :: cs => if c == ':' then trim cs else extractValue cs

/-- One structured issue produced by `parseReview`.  The JS object's
`example` field is called `exampleText` (`example` is a Lean keyword). -/
structure Issue where
  type : Str
  severity : Str
  line : Option JSNum
  description : Str
  suggestion : Str
  exampleText : Str
deriving DecidableEq, Repr

/-- The fresh issue object `parseReview` creates at an Issue Type marker. -/
def emptyIssue (t : Str) : Issue :=
  { type := t, severity := "MEDIUM".data, line := none,
    description := [], suggestion := [], exampleText := [] }

/-- The line-by-line state machine of `parseReview`: `cur` is the JS
`currentIssue` (`none` = `null`); returns the accumulated `issues`. -/
def parseLines : Option Issue → List Str → List Issue
  | cur, [] =>
    match cur with
    | some i => [i]
    | none => []
  | cur, l :: ls =>
    let t := trim l
    if issueTypeMarker.isPrefixOf t then
      match cur with
      | some i => i :: parseLines (some (emptyIssue (extractValue t))) ls
      | none => parseLines (some (emptyIssue (extractValue t))) ls
    else
      match cur with
      | none => parseLines none ls
      | some i =>
        if severityMarker.isPrefixOf t then
          parseLines (some { i with severity := extractValue t }) ls
        else if lineMarker.isPrefixOf t then
          let v := extractValue t
          parseLines
            (some { i with line := if v ≠ "N/A".data then some (jsParseInt v) else none }) ls
        else if descriptionMarker.isPrefixOf t then
          parseLines (some { i with description := extractValue t }) ls
        else if suggestionMarker.isPrefixOf t then
          parseLines (some { i with suggestion := extractValue t }) ls
        else if exampleMarker.isPrefixOf t then
          parseLines (some { i with exampleText := extractValue t }) ls
        else
          parseLines (some i) ls

/-- The first (non-bullet prose) lines collected by `extractSummary`;
the loop breaks at the first trimmed line starting with `- **`. -/
def summaryLines : List Str → List Str
  | [] => []
  | l :: ls =>
    let t := trim l
    if !t.isEmpty && !(bulletMarker.isPrefixOf t) then t :: summaryLines ls
    else if bulletMarker.isPrefixOf t then []
    else summaryLines ls

/-- The fallback summary of `extractSummary`. -/
def defaultSummary : Str := "Code review completed.".data

/-- `extractSummary` of `ai-service.js`. -/
def extractSummary (reviewText : Str) : Str :=
  let s := trim (joinSpace (summaryLines (splitNl reviewText)))
  if s.isEmpty then defaultSummary else s

/-- The structured result of `parseReview`. -/
structure ParsedReview where
  summary : Str
  issues : List Issue
  rawReview : Str
deriving DecidableEq, Repr

/-- `parseReview` of `ai-service.js`. -/
def parseReview (reviewText : Str) : ParsedReview :=
  { summary := extractSummary reviewText
    issues := parseLines none (splitNl reviewText)
    rawReview := reviewText }

/-! ### The diff parser (`diff-parser.js`) -/

/-- The review-relevant configuration values (`config.review`). -/
structure Config where
  maxDiffSize : Nat
  supportedLanguages : List Str
  skipFiles : List Str

/-- One GitLab change record as consumed by `parseFileChange`. -/
structure ChangeRecord where
  old_path : Str
  new_path : Str
  new_file : Bool
  deleted_file : Bool
  renamed_file : Bool
  diff : Str

/-- A parsed file as produced by `parseFileChange`.  The "too large"
record of the source carries only a subset of the fields, so the fields
absent from it are `Option`s (`none` = absent in the JS object). -/
structure ParsedFile where
  filename : Str
  language : Str
  changeType : Str
  diff : Str
  tooLarge : Bool
  oldFilename : Option Str := none
  additions : Option Nat := none
  deletions : Option Nat := none
  isNewFile : Option Bool := none
  isDeletedFile : Option Bool := none
  isRenamedFile : Option Bool := none
  size : Option Nat := none
deriving DecidableEq, Repr

/-- One token of the regex that `shouldSkipFile` builds from a glob
pattern by `pattern.replace(/\*/g, '.*').replace(/\?/g, '.')`:
`*` becomes `.*` (any run of non-newline characters), and `?` — and a
literal `.` of the pattern, which the source does not escape — becomes
`.` (any single non-newline character). -/
inductive GlobTok where
  | anySeq
  | anyChar
  | lit (c : Char)
deriving DecidableEq, Repr

/-- Characters the regex dot (`.`) does not match (JS line terminators;
the two Unicode ones are not modelled). -/
def isLineTerm (c : Char) : Bool := c == '\n' || c == '\r'

/-- Token list of the regex built from a glob pattern.  Faithful for
patterns whose characters other than `*`, `?`, `.` carry no special
regex meaning (true of every pattern the program's configuration uses). -/
def globTokens (p : Str) : List GlobTok :=
  p.map fun c =>
    if c == '*' then .anySeq
    else if c == '?' || c == '.' then .anyChar
    else .lit c

/-- Matching of a token list against some prefix of `s`, with the
case-insensitive (`i`) flag modelled by comparing lowercased characters. -/
def tokMatch : List GlobTok → Str → Bool
  | [], _ => true
  | .anySeq :: ts, s =>
    tokMatch ts s ||
      (match s with
       | [] => false
       | c :: cs => !isLineTerm c && tokMatch (.anySeq :: ts) cs)
  | .anyChar :: ts, s =>
    match s with
    | [] => false
    | c :: cs => !isLineTerm c && tokMatch ts cs
  | .lit c :: ts, s =>
    match s with
    | [] => false
    | d :: cs => (d.toLower == c.toLower) && tokMatch ts cs
termination_by ts s => (s.length, ts.length)

/-- JS `regex.test(filename)`: the token list matches starting at some
position of `s`. -/
def globSearch (ts : List GlobTok) (s : Str) : Bool :=
  tokMatch ts s ||
    (match s with
     | [] => false
     | _ :: cs => globSearch ts cs)

/-- One pattern test of `shouldSkipFile`: a pattern containing `*` is
turned into a case-insensitive regex and searched in the filename; any
other pattern matches by exact equality or by suffix. -/
def matchesPattern (filename pattern : Str) : Bool :=
  if '*' ∈ pattern then globSearch (globTokens pattern) filename
  else filename == pattern || pattern.isSuffixOf filename

/-- `shouldSkipFile` of `diff-parser.js` (`skipPatterns.some (...)`). -/
def shouldSkipFile (cfg : Config) (filename : Str) : Bool :=
  cfg.skipFiles.any (matchesPattern filename)

/-- The extension→language table of `detectLanguage`. -/
def languageTable : List (Str × Str) :=
  [("js", "javascript"), ("jsx", "javascript"), ("ts", "typescript"),
   ("tsx", "typescript"), ("py", "python"), ("java", "java"), ("go", "go"),
   ("rs", "rust"), ("php", "php"), ("rb", "ruby"), ("cs", "csharp"),
   ("cpp", "cpp"), ("cc", "cpp"), ("cxx", "cpp"), ("c", "c"), ("h", "c"),
   ("hpp", "cpp"), ("kt", "kotlin"), ("swift", "swift"), ("scala", "scala"),
   ("dart", "dart"), ("vue", "javascript"), ("svelte", "javascript"),
   ("html", "html"), ("css", "css"), ("scss", "scss"), ("sass", "sass"),
   ("less", "less"), ("sql", "sql"), ("sh", "bash"), ("bash", "bash"),
   ("zsh", "bash"), ("ps1", "powershell"), ("yaml", "yaml"), ("yml", "yaml"),
   ("json", "json"), ("xml", "xml"), ("md", "markdown"),
   ("dockerfile", "dockerfile")].map fun p => (p.1.data, p.2.data)

/-- `detectLanguage` of `diff-parser.js`:
`filename.split('.').pop()?.toLowerCase()` looked up in the table,
defaulting to `unknown`. -/
def detectLanguage (filename : Str) : Str :=
  let ext := (List.getLastD (filename.splitOn '.') []).map Char.toLower
  match languageTable.lookup ext with
  | some l => l
  | none => "unknown".data

/-- `isLanguageSupported` of `diff-parser.js`. -/
def isLanguageSupported (cfg : Config) (language : Str) : Bool :=
  cfg.supportedLanguages.contains language

/-- `getChangeType` of `diff-parser.js`. -/
def getChangeType (change : ChangeRecord) : Str :=
  if change.new_file then "added".data
  else if change.deleted_file then "deleted".data
  else if change.renamed_file then "renamed".data
  else "modified".data

/-- The binary-file indicator `cleanDiff` looks for. -/
def binaryMarker : Str := "Binary files differ".data

/-- The placeholder `cleanDiff` returns for a binary diff. -/
def binaryPlaceholder : Str := "// Binary file - cannot review content".data

/-- The line filter of `cleanDiff`'s loop: `diff --git`, `index `, `+++`
and `---` header lines are dropped, hunk headers and `+`/`-`/space lines
are kept, anything else is dropped. -/
def keepLine (l : Str) : Bool :=
  if "diff --git".data.isPrefixOf l || "index ".data.isPrefixOf l ||
      "+++".data.isPrefixOf l || "---".data.isPrefixOf l then false
  else if "@@".data.isPrefixOf l then true
  else "+".data.isPrefixOf l || "-".data.isPrefixOf l || " ".data.isPrefixOf l

/-- JS `s.includes(sub)`: `sub` occurs contiguously inside `s`. -/
def includesSub (s sub : Str) : Bool := decide (sub <:+: s)

/-- `cleanDiff` of `diff-parser.js`. -/
def cleanDiff (diff : Str) : Str :=
  if includesSub diff binaryMarker then binaryPlaceholder
  else joinNl ((splitNl diff).filter keepLine)

/-- The per-line test of `countAdditions`'s regex `/^\+(?!\+)/gm`. -/
def isAdditionLine (l : Str) : Bool :=
  match l with
  | '+' :: '+' :: _ => false
  | '+' :: _ => true
  | _ => false

/-- The per-line test of `countDeletions`'s regex `/^-(?!-)/gm`. -/
def isDeletionLine (l : Str) : Bool :=
  match l with
  | '-' :: '-' :: _ => false
  | '-' :: _ => true
  | _ => false

/-- `countAdditions` of `diff-parser.js`. -/
def countAdditions (diff : Str) : Nat :=
  ((splitNl diff).filter isAdditionLine).length

/-- `countDeletions` of `diff-parser.js`. -/
def countDeletions (diff : Str) : Nat :=
  ((splitNl diff).filter isDeletionLine).length

/-- `parseFileChange` of `diff-parser.js`; `none` is the JS `null`
(the change is dropped). -/
def parseFileChange (cfg : Config) (change : ChangeRecord) : Option ParsedFile :=
  if (trim change.diff).isEmpty then none
  else if shouldSkipFile cfg change.new_path then none
  else if change.diff.length > cfg.maxDiffSize then
    some { filename := change.new_path
           language := detectLanguage change.new_path
           changeType := getChangeType change
           diff := "// Diff too large for review".data
           tooLarge := true
           size := some change.diff.length }
  else
    let language := detectLanguage change.new_path
    if !(isLanguageSupported cfg language) then none
    else
      some { filename := change.new_path
             oldFilename := some change.old_path
             language := language
             changeType := getChangeType change
             diff := cleanDiff change.diff
             additions := some (countAdditions change.diff)
             deletions := some (countDeletions change.diff)
             isNewFile := some change.new_file
             isDeletedFile := some change.deleted_file
             isRenamedFile := some change.renamed_file
             tooLarge := false }

/-- `p.isPrefixOf s` as an `Option` dropping the matched prefix
(helper for the hunk-header regex). -/
def stripPre (p s : Str) : Option Str :=
  if p.isPrefixOf s then some (s.drop p.length) else none

/-- Regex piece `\d+`: the (non-empty) leading digits and the rest. -/
def parseDigits1 (s : Str) : Option (Str × Str) :=
  let ds := s.takeWhile Char.isDigit
  if ds.isEmpty then none else some (ds, s.drop ds.length)

/-- Regex piece `,?\d*` (an optional comma, then any digits). -/
def skipCommaDigits (s : Str) : Str :=
  match s with
  | ',' :: r => r.dropWhile Char.isDigit
  | _ => s.dropWhile Char.isDigit

/-- The hunk-header regex `@@ -\d+,?\d* \+(\d+),?\d* @@` of
`extractAddedLines`, tried at the start of `s`; returns the digits of
the capture group.  The regex is deterministic (each quantified piece
is followed by a character no digit can match), so greedy matching
needs no backtracking. -/
def matchHunkAt (s : Str) : Option Str := do
  let s1 ← stripPre "@@ -".data s
  let (_, s2) ← parseDigits1 s1
  let s3 := skipCommaDigits s2
  let s4 ← stripPre " +".data s3
  let (cap, s5) ← parseDigits1 s4
  let s6 := skipCommaDigits s5
  let _ ← stripPre " @@".data s6
  return cap

/-- JS `line.match(regex)`: the hunk-header regex searched left to
right over the line (first position where it matches). -/
def searchHunk : Str → Option Str
  | [] => matchHunkAt []
  | c :: cs =>
    match matchHunkAt (c :: cs) with
    | some cap => some cap
    | none => searchHunk cs

/-- One added line recorded by `extractAddedLines`.  The line number is
an `Int` because the JS counter `parseInt(match[1]) - 1` can reach `-1`. -/
structure AddedLine where
  lineNumber : Int
  content : Str
deriving DecidableEq, Repr

/-- The loop of `extractAddedLines`: `cur` is `currentLineNumber`, the
flag is `inHunk`. -/
def extractLoop : List Str → Int → Bool → List AddedLine
  | [], _, _ => []
  | l :: ls, cur, inHunk =>
    if "@@".data.isPrefixOf l then
      match searchHunk l with
      | some cap => extractLoop ls ((digitsVal cap : Int) - 1) true
      | none => extractLoop ls cur inHunk
    else if !inHunk then extractLoop ls cur inHunk
    else
      let rec' :=
        if "+".data.isPrefixOf l && !("+++".data.isPrefixOf l) then
          [AddedLine.mk (cur + 1) (l.drop 1)]
        else []
      let cur' := if " ".data.isPrefixOf l || "+".data.isPrefixOf l then cur + 1 else cur
      rec' ++ extractLoop ls cur' inHunk

/-- `extractAddedLines` of `diff-parser.js`. -/
def extractAddedLines (diff : Str) : List AddedLine :=
  extractLoop (splitNl diff) 0 false

/-! ### The reviewer (`reviewer.js`) -/

/-- One per-file review result pushed by the loop of
`reviewMergeRequest`.  The source pushes one of three object shapes;
the invariant that they never mix is made explicit by the inductive. -/
inductive FileReview where
  | normal (filename language changeType : Str) (summary : Str)
      (issues : List Issue) (rawReview : Str)
  | skipped (filename reason : Str)
  | errored (filename errorMessage : Str)
deriving DecidableEq, Repr

/-- The `issues` array of a `FileReview` (the skipped and errored
objects carry `issues: []`). -/
def FileReview.issues : FileReview → List Issue
  | .normal _ _ _ _ is _ => is
  | .skipped _ _ => []
  | .errored _ _ => []

/-- The `filename` field of a `FileReview`. -/
def FileReview.filename : FileReview → Str
  | .normal fn _ _ _ _ _ => fn
  | .skipped fn _ => fn
  | .errored fn _ => fn

/-- The per-file loop of `reviewMergeRequest` (`reviewer.js` lines
51–90).  `ai` stands for `aiService.reviewCode` on the file's data: a
successful call yields the parsed review, a throw yields the error
message.  The `tooLarge` branch and the push cannot throw, and the
rate-limit delay has no effect on the result, so the `catch` is exactly
the `Except.error` case of the AI call. -/
def reviewOneFile (ai : ParsedFile → Except Str ParsedReview)
    (f : ParsedFile) : FileReview :=
  if f.tooLarge then
    .skipped f.filename "File too large".data
  else
    match ai f with
    | .ok r => .normal f.filename f.language f.changeType r.summary r.issues r.rawReview
    | .error e => .errored f.filename e

/-- The iteration of the loop over the parsed files. -/
def reviewFiles (ai : ParsedFile → Except Str ParsedReview) :
    List ParsedFile → List FileReview
  | [] => []
  | f :: fs => reviewOneFile ai f :: reviewFiles ai fs

/-- Decimal digit character (used to render JS template literals
`${n}` for numbers). -/
def digitChar (d : Nat) : Char := Char.ofNat (48 + d)

/-- Decimal rendering of a natural number (JS `${n}`). -/
def natToChars (n : Nat) : Str :=
  if _h : n < 10 then [digitChar n]
  else natToChars (n / 10) ++ [digitChar (n % 10)]
decreasing_by exact Nat.div_lt_self (by omega) (by omega)

/-- Decimal rendering of an integer (JS `${n}`). -/
def intToChars (n : Int) : Str :=
  if n < 0 then '-' :: natToChars n.natAbs else natToChars n.natAbs

/-- Total issue count over the file reviews
(`reviews.reduce((sum, r) => sum + (r.issues?.length || 0), 0)`). -/
def totalIssues (reviews : List FileReview) : Nat :=
  (reviews.map fun r => r.issues.length).sum

/-- Count over the file reviews of issues with severity `CRITICAL`. -/
def criticalIssues (reviews : List FileReview) : Nat :=
  (reviews.map fun r => (r.issues.filter fun i => i.severity = "CRITICAL".data).length).sum

/-- Count over the file reviews of issues with type `SECURITY`. -/
def securityIssues (reviews : List FileReview) : Nat :=
  (reviews.map fun r => (r.issues.filter fun i => i.type = "SECURITY".data).length).sum

/-- The fixed severity iteration order of `generateReviewComment`
(`Object.entries` of `issuesBySeverity` in insertion order). -/
def sevOrder : List Str :=
  ["CRITICAL".data, "HIGH".data, "MEDIUM".data, "LOW".data]

/-- The severity icons of `generateReviewComment`. -/
def sevIcon (sev : Str) : Str :=
  if sev = "CRITICAL".data then "🚨".data
  else if sev = "HIGH".data then "⚠️".data
  else if sev = "MEDIUM".data then "⚡".data
  else "💡".data

/-- JS truthiness of `issue.line` (`null`, `NaN` and `0` are falsy). -/
def lineTruthy : Option JSNum → Bool
  | none => false
  | some .nan => false
  | some (.num n) => n != 0

/-- The text rendered for `${issue.line}` where it is truthy. -/
def lineText : Option JSNum → Str
  | some (.num n) => intToChars n
  | some .nan => "NaN".data
  | none => "null".data

/-- The block `generateReviewComment` renders for one issue. -/
def renderIssueBlock (i : Issue) : Str :=
  "**".data ++ i.type ++ "**".data ++
    (if lineTruthy i.line then " (Line ".data ++ lineText i.line ++ ")".data else []) ++
    "\n".data ++ i.description ++ "\n\n".data ++
    (if !i.suggestion.isEmpty then "*Suggestion:* ".data ++ i.suggestion ++ "\n\n".data else []) ++
    (if !i.exampleText.isEmpty then
      "*Example:*\n```\n".data ++ i.exampleText ++ "\n```\n\n".data else [])

/-- The block `generateReviewComment` renders for one severity group
(empty when the group has no issues). -/
def renderSeverityGroup (issues : List Issue) (sev : Str) : Str :=
  let group := issues.filter fun i => i.severity = sev
  if group.isEmpty then []
  else
    "#### ".data ++ sevIcon sev ++ " ".data ++ sev ++ " Issues\n\n".data ++
      (group.map renderIssueBlock).flatten

/-- The per-file section of `generateReviewComment`. -/
def renderFileSection (r : FileReview) : Str :=
  match r with
  | .errored fn msg =>
    "### ❌ ".data ++ fn ++ "\n".data ++
      "*Error during review: ".data ++ msg ++ "*\n\n".data
  | .skipped fn reason =>
    "### ⏭️ ".data ++ fn ++ "\n".data ++ "*Skipped: ".data ++ reason ++ "*\n\n".data
  | .normal fn _ _ _ issues _ =>
    if issues.isEmpty then
      "### ✅ ".data ++ fn ++ "\n".data ++ "*No issues found*\n\n".data
    else
      "### 📝 ".data ++ fn ++ "\n".data ++ "*".data ++
        natToChars issues.length ++ " issue(s) found*\n\n".data ++
        (sevOrder.map (renderSeverityGroup issues)).flatten

/-- The `## 🤖 AI Code Review` header line. -/
def commentHeader : Str := "## 🤖 AI Code Review\n\n".data

/-- The congratulatory line for a review with no issues. -/
def congratsLine : Str := "✅ **Great work!** No issues found in this merge request.\n\n".data

/-- The summary block emitted when issues were found: files reviewed,
total issues, then the critical and security lines, each only when its
count is positive. -/
def summaryBlock (reviews : List FileReview) : Str :=
  "📊 **Review Summary:**\n".data ++
    "- **Files Reviewed:** ".data ++ natToChars reviews.length ++ "\n".data ++
    "- **Total Issues:** ".data ++ natToChars (totalIssues reviews) ++ "\n".data ++
    (if criticalIssues reviews > 0 then
      "- **Critical Issues:** ⚠️ ".data ++ natToChars (criticalIssues reviews) ++ "\n".data
    else []) ++
    (if securityIssues reviews > 0 then
      "- **Security Issues:** 🔒 ".data ++ natToChars (securityIssues reviews) ++ "\n".data
    else []) ++
    "\n".data

/-- The footer of `generateReviewComment`; the timestamp and the
provider/model identifiers are parameters of the embedding (the source
reads the clock and the configuration). -/
def commentFooter (timestamp provider model : Str) : Str :=
  "---\n".data ++ "*Review generated by GitLab AI Reviewer at ".data ++ timestamp ++
    "*\n".data ++ "*Powered by ".data ++ provider ++ " ".data ++ model ++ "*".data

/-- `generateReviewComment` of `reviewer.js`.  (The source also
computes `DiffParser.getFileStats(parsedFiles)` into `stats`, but never
uses it in the comment, so the embedding takes no `parsedFiles`.) -/
def generateReviewComment (reviews : List FileReview)
    (timestamp provider model : Str) : Str :=
  commentHeader ++
    (if totalIssues reviews = 0 then congratsLine else summaryBlock reviews) ++
    (reviews.map renderFileSection).flatten ++
    commentFooter timestamp provider model

/-! ### Utility lemmas about the string model -/

theorem prefix_trimRight (s : Str) : trimRight s <+: s := by
  induction s with
  | nil => simp [trimRight]
  | cons c cs ih =>
    rw [trimRight]
    cases h : trimRight cs with
    | nil =>
      by_cases hw : isWS c
      · simp [hw]
      · simp [hw]
    | cons r rs =>
      exact (List.cons_prefix_cons).2 ⟨rfl, h ▸ ih⟩

theorem trimLeft_suffix (s : Str) : trimLeft s <:+ s :=
  List.dropWhile_suffix isWS

theorem trim_eq_self_parts {s : Str} (h : trim s = s) :
    trimLeft s = s ∧ trimRight s = s := by
  have h1 : trimLeft s <:+ s := trimLeft_suffix s
  have h2 : trimRight (trimLeft s) <+: trimLeft s := prefix_trimRight _
  have hlen1 : (trimLeft s).length ≤ s.length := h1.length_le
  have hlen2 : (trimRight (trimLeft s)).length ≤ (trimLeft s).length := h2.length_le
  have hlen : (trimRight (trimLeft s)).length = s.length := by rw [show trimRight (trimLeft s) = s from h]
  have heq1 : trimLeft s = s := h1.eq_of_length (by omega)
  refine ⟨heq1, ?_⟩
  calc trimRight s = trimRight (trimLeft s) := by rw [heq1]
    _ = s := h

theorem trimLeft_cons_of_not_ws {c : Char} (s : Str) (h : isWS c = false) :
    trimLeft (c :: s) = c :: s := by
  simp [trimLeft, List.dropWhile_cons, h]

theorem trimRight_append (a b : Str) :
    trimRight (a ++ b) =
      if trimRight b = [] then trimRight a else a ++ trimRight b := by
  induction a with
  | nil =>
    by_cases hb : trimRight b = []
    · simp [hb, trimRight]
    · simp [hb]
  | cons c cs ih =>
    rw [List.cons_append, trimRight, ih]
    by_cases hb : trimRight b = []
    · rw [if_pos hb, if_pos hb, trimRight]
    · rw [if_neg hb, if_neg hb, List.cons_append]
      cases hcs : (cs ++ trimRight b : Str) with
      | nil =>
        rcases List.append_eq_nil.1 hcs with ⟨-, h2⟩
        exact absurd h2 hb
      | cons x xs => simp

theorem trimRight_of_forall_not_ws {s : Str} (h : ∀ c ∈ s, isWS c = false) :
    trimRight s = s := by
  induction s with
  | nil => rfl
  | cons c cs ih =>
    rw [trimRight, ih (fun x hx => h x (List.mem_cons_of_mem _ hx))]
    cases cs with
    | nil => simp [h c (by simp)]
    | cons d ds => simp

theorem trim_of_forall_not_ws {s : Str} (h : ∀ c ∈ s, isWS c = false) :
    trim s = s := by
  have hl : trimLeft s = s := by
    cases s with
    | nil => rfl
    | cons c cs => exact trimLeft_cons_of_not_ws cs (h c (by simp))
  rw [trim, hl, trimRight_of_forall_not_ws h]

theorem trim_cons_ws {c : Char} (v : Str) (h : isWS c = true) :
    trim (c :: v) = trim v := by
  simp [trim, trimLeft, List.dropWhile_cons, h]

/-- Shape of `trim` on a rendered marker line `m ++ ' ' :: v` where the
marker `m` starts with a non-whitespace character and does not end in
whitespace, and the value `v` is already trimmed. -/
theorem trim_marker_line {m : Str} {mh : Char} {mt : Str} (hm : m = mh :: mt)
    (hmh : isWS mh = false) (hmr : trimRight m = m) {v : Str} (hv : trim v = v) :
    trim (m ++ ' ' :: v) = if v = [] then m else m ++ ' ' :: v := by
  have hleft : trimLeft (m ++ ' ' :: v) = m ++ ' ' :: v := by
    rw [hm, List.cons_append]
    exact trimLeft_cons_of_not_ws _ hmh
  rw [trim, hleft]
  rcases eq_or_ne v [] with rfl | hne
  · have h1 : trimRight [' '] = ([] : Str) := by decide
    rw [trimRight_append, h1, if_pos rfl, hmr]
    simp
  · have hvr : trimRight v = v := (trim_eq_self_parts hv).2
    have h2 : trimRight (' ' :: v) = ' ' :: v := by
      rw [trimRight, hvr]
      cases v with
      | nil => exact absurd rfl hne
      | cons d ds => simp
    rw [trimRight_append, h2, if_neg (by simp), if_neg hne]

theorem extractValue_append_colon {p : Str} (hp : ':' ∉ p) (r : Str) :
    extractValue (p ++ ':' :: r) = trim r := by
  induction p with
  | nil => simp [extractValue]
  | cons c cs ih =>
    have hc : c ≠ ':' := fun h => hp (h ▸ List.mem_cons_self c cs)
    rw [List.cons_append, extractValue, if_neg (by simpa using hc)]
    exact ih (fun h => hp (List.mem_cons_of_mem _ h))

/-- Two lists that are mutually non-prefix cannot become a prefix by
extending the second on the right. -/
theorem not_prefix_of_incomp {a b : Str} (h1 : ¬ a <+: b) (h2 : ¬ b <+: a)
    (v : Str) : ¬ a <+: b ++ v := fun h =>
  ( List.prefix_or_prefix_of_prefix h (List.prefix_append b v)).elim h1 h2

/-- Prefixing with a marker: boolean form on a rendered line. -/
theorem isPrefixOf_marker_self (m v : Str) : m.isPrefixOf (m ++ v) = true :=
  List.isPrefixOf_iff_prefix.2 (List.prefix_append m v)

theorem isPrefixOf_eq_false_of_incomp {a b : Str} (h1 : ¬ a <+: b)
    (h2 : ¬ b <+: a) (v : Str) : a.isPrefixOf (b ++ v) = false := by
  rw [← Bool.not_eq_true, List.isPrefixOf_iff_prefix]
  exact not_prefix_of_incomp h1 h2 v

/-! ### Decimal rendering and `parseInt` -/

/-- The decimal digit characters. -/
def digitCharset : Str := "0123456789".data

theorem digitChar_mem {d : Nat} (h : d < 10) : digitChar d ∈ digitCharset := by
  interval_cases d <;> decide

theorem natToChars_subset (n : Nat) : ∀ c ∈ natToChars n, c ∈ digitCharset := by
  induction n using Nat.strong_induction_on with
  | _ n ih =>
    rw [natToChars]
    split
    · next h =>
      intro c hc
      simp only [List.mem_singleton] at hc
      subst hc
      exact digitChar_mem h
    · next h =>
      intro c hc
      rcases List.mem_append.1 hc with h1 | h2
      · exact ih (n / 10) (Nat.div_lt_self (by omega) (by omega)) c h1
      · simp only [List.mem_singleton] at h2
        subst h2
        exact digitChar_mem (Nat.mod_lt _ (by omega))

theorem natToChars_ne_nil (n : Nat) : natToChars n ≠ [] := by
  rw [natToChars]
  split <;> simp

theorem digitsVal_append_singleton (a : Str) (c : Char) :
    digitsVal (a ++ [c]) = 10 * digitsVal a + digitVal c := by
  simp [digitsVal, List.foldl_append]

theorem digitVal_digitChar {d : Nat} (h : d < 10) : digitVal (digitChar d) = d := by
  interval_cases d <;> decide

theorem digitsVal_natToChars (n : Nat) : digitsVal (natToChars n) = n := by
  induction n using Nat.strong_induction_on with
  | _ n ih =>
    rw [natToChars]
    split
    · next h => simp [digitsVal, digitVal_digitChar h]
    · next h =>
      rw [digitsVal_append_singleton,
        ih (n / 10) (Nat.div_lt_self (by omega) (by omega)),
        digitVal_digitChar (Nat.mod_lt _ (by omega))]
      omega

theorem digitCharset_eq :
    digitCharset = ['0', '1', '2', '3', '4', '5', '6', '7', '8', '9'] := rfl

theorem digit_not_ws {c : Char} (h : c ∈ digitCharset) : isWS c = false := by
  rw [digitCharset_eq] at h
  simp only [List.mem_cons, List.not_mem_nil, or_false] at h
  rcases h with rfl | rfl | rfl | rfl | rfl | rfl | rfl | rfl | rfl | rfl <;> decide

theorem digit_isDigit {c : Char} (h : c ∈ digitCharset) : c.isDigit = true := by
  rw [digitCharset_eq] at h
  simp only [List.mem_cons, List.not_mem_nil, or_false] at h
  rcases h with rfl | rfl | rfl | rfl | rfl | rfl | rfl | rfl | rfl | rfl <;> decide

theorem digit_ne_nl {c : Char} (h : c ∈ digitCharset) : c ≠ '\n' := by
  rw [digitCharset_eq] at h
  simp only [List.mem_cons, List.not_mem_nil, or_false] at h
  rcases h with rfl | rfl | rfl | rfl | rfl | rfl | rfl | rfl | rfl | rfl <;> decide

theorem natToChars_head_ne_zero {n : Nat} (hn : 0 < n) {c : Char} {t : Str}
    (h : natToChars n = c :: t) : c ≠ '0' := by
  induction n using Nat.strong_induction_on generalizing c t with
  | _ n ih =>
    rw [natToChars] at h
    split at h
    · next hlt =>
      injection h with h1 _
      subst h1
      interval_cases n <;> decide
    · next hge =>
      obtain ⟨c', t', hc⟩ : ∃ c' t', natToChars (n / 10) = c' :: t' := by
        cases hnc : natToChars (n / 10) with
        | nil => exact absurd hnc (natToChars_ne_nil _)
        | cons x xs => exact ⟨x, xs, rfl⟩
      rw [hc, List.cons_append] at h
      injection h with h1 _
      subst h1
      have hpos : 0 < n / 10 := (Nat.le_div_iff_mul_le (by norm_num)).2 (by omega)
      exact ih (n / 10) (Nat.div_lt_self (by omega) (by omega)) hpos hc

theorem isHexPre_natToChars (n : Nat) : isHexPre (natToChars n) = false := by
  cases hnc : natToChars n with
  | nil => rfl
  | cons a t =>
    cases t with
    | nil => rfl
    | cons b t' =>
      have hge : ¬ n < 10 := by
        intro hlt
        rw [natToChars, dif_pos hlt] at hnc
        injection hnc with _ h2
        exact List.noConfusion h2
      have ha : a ≠ '0' := natToChars_head_ne_zero (by omega) hnc
      show (a == '0' && (b == 'x' || b == 'X')) = false
      simp [ha]

theorem takeWhile_eq_self_of_forall {p : Char → Bool} {s : Str}
    (h : ∀ c ∈ s, p c = true) : s.takeWhile p = s := by
  induction s with
  | nil => rfl
  | cons c cs ih =>
    rw [List.takeWhile_cons, h c (by simp)]
    simp [ih fun x hx => h x (List.mem_cons_of_mem _ hx)]

theorem jsParseIntMag_natToChars (n : Nat) : jsParseIntMag (natToChars n) = some n := by
  rw [jsParseIntMag, isHexPre_natToChars]
  have ht : (natToChars n).takeWhile Char.isDigit = natToChars n :=
    takeWhile_eq_self_of_forall fun c hc => digit_isDigit (natToChars_subset n c hc)
  simp only [Bool.false_eq_true, if_false, ht]
  rw [if_neg (by simp [natToChars_ne_nil n]), digitsVal_natToChars]

theorem jsParseInt_natToChars (n : Nat) : jsParseInt (natToChars n) = .num n := by
  obtain ⟨c, r, hc⟩ : ∃ c r, natToChars n = c :: r := by
    cases hnc : natToChars n with
    | nil => exact absurd hnc (natToChars_ne_nil _)
    | cons x xs => exact ⟨x, xs, rfl⟩
  have hmem : c ∈ digitCharset := natToChars_subset n c (by rw [hc]; simp)
  have hdrop : (natToChars n).dropWhile isWS = c :: r := by
    rw [hc, List.dropWhile_cons, digit_not_ws hmem]
    simp
  rw [jsParseInt]
  simp only [hdrop, List.headD_cons, List.tail_cons]
  rw [digitCharset_eq] at hmem
  simp only [List.mem_cons, List.not_mem_nil, or_false] at hmem
  have hminus : (c == '-') = false := by
    rcases hmem with rfl | rfl | rfl | rfl | rfl | rfl | rfl | rfl | rfl | rfl <;> decide
  have hplus : (c == '+') = false := by
    rcases hmem with rfl | rfl | rfl | rfl | rfl | rfl | rfl | rfl | rfl | rfl <;> decide
  simp only [hminus, hplus, Bool.false_eq_true, if_false]
  rw [← hc, jsParseIntMag_natToChars]

theorem natToChars_nl_free (n : Nat) : '\n' ∉ natToChars n := fun h =>
  digit_ne_nl (natToChars_subset n '\n' h) rfl

theorem natToChars_ne_NA (n : Nat) : natToChars n ≠ "N/A".data := by
  intro h
  have : 'N' ∈ digitCharset := natToChars_subset n 'N' (by rw [h]; decide)
  exact absurd this (by decide)

theorem trim_natToChars (n : Nat) : trim (natToChars n) = natToChars n :=
  trim_of_forall_not_ws fun c hc => digit_not_ws (natToChars_subset n c hc)

/-! ### Lemmas about `splitOn` -/

theorem mem_splitOnP_forall {p : Char → Bool} :
    ∀ (xs : List Char) (l : Str), l ∈ List.splitOnP p xs → ∀ c ∈ l, p c = false := by
  intro xs
  induction xs with
  | nil =>
    intro l hl
    rw [List.splitOnP_nil] at hl
    simp only [List.mem_singleton] at hl
    subst hl
    simp
  | cons x xs ih =>
    intro l hl
    rw [List.splitOnP_cons] at hl
    by_cases hx : p x
    · rw [if_pos hx] at hl
      rcases List.mem_cons.1 hl with rfl | h2
      · simp
      · exact ih l h2
    · rw [if_neg hx] at hl
      cases hsp : List.splitOnP p xs with
      | nil => exact absurd hsp (List.splitOnP_ne_nil p xs)
      | cons hd tl =>
        rw [hsp, List.modifyHead_cons] at hl
        rcases List.mem_cons.1 hl with rfl | h2
        · intro c hc
          rcases List.mem_cons.1 hc with rfl | h3
          · simpa using hx
          · exact ih hd (hsp ▸ List.mem_cons_self hd tl) c h3
        · exact ih l (hsp ▸ List.mem_cons_of_mem hd h2)

theorem head_prefix_splitOnP {p : Char → Bool} :
    ∀ (xs : List Char) (hd : Str) (tl : List Str),
      List.splitOnP p xs = hd :: tl → hd <+: xs := by
  intro xs
  induction xs with
  | nil =>
    intro hd tl heq
    rw [List.splitOnP_nil] at heq
    injection heq with h1 _
    subst h1
    exact List.nil_prefix
  | cons x xs ih =>
    intro hd tl heq
    rw [List.splitOnP_cons] at heq
    by_cases hx : p x
    · rw [if_pos hx] at heq
      injection heq with h1 _
      subst h1
      exact List.nil_prefix
    · rw [if_neg hx] at heq
      cases hsp : List.splitOnP p xs with
      | nil => exact absurd hsp (List.splitOnP_ne_nil p xs)
      | cons hd' tl' =>
        rw [hsp, List.modifyHead_cons] at heq
        injection heq with h1 _
        subst h1
        exact (List.cons_prefix_cons).2 ⟨rfl, ih hd' tl' hsp⟩

theorem infix_of_mem_splitOnP {p : Char → Bool} :
    ∀ (xs : List Char) (l : Str), l ∈ List.splitOnP p xs → l <:+: xs := by
  intro xs
  induction xs with
  | nil =>
    intro l hl
    rw [List.splitOnP_nil] at hl
    simp only [List.mem_singleton] at hl
    subst hl
    exact List.nil_infix
  | cons x xs ih =>
    intro l hl
    rw [List.splitOnP_cons] at hl
    by_cases hx : p x
    · rw [if_pos hx] at hl
      rcases List.mem_cons.1 hl with rfl | h2
      · exact List.nil_infix
      · exact List.infix_cons (ih l h2)
    · rw [if_neg hx] at hl
      cases hsp : List.splitOnP p xs with
      | nil => exact absurd hsp (List.splitOnP_ne_nil p xs)
      | cons hd tl =>
        rw [hsp, List.modifyHead_cons] at hl
        rcases List.mem_cons.1 hl with rfl | h2
        · exact ((List.cons_prefix_cons).2 ⟨rfl, head_prefix_splitOnP xs hd tl hsp⟩).isInfix
        · exact List.infix_cons (ih l (hsp ▸ List.mem_cons_of_mem hd h2))

theorem mem_splitNl_nl_free {s l : Str} (h : l ∈ splitNl s) : '\n' ∉ l := by
  intro hc
  have := mem_splitOnP_forall s l h '\n' hc
  simp at this

theorem infix_of_mem_splitNl {s l : Str} (h : l ∈ splitNl s) : l <:+: s :=
  infix_of_mem_splitOnP s l h

theorem splitNl_joinNl {ls : List Str} (h : ∀ l ∈ ls, '\n' ∉ l) (hne : ls ≠ []) :
    splitNl (joinNl ls) = ls :=
  List.splitOn_intercalate ls '\n' h hne

/-! ### Claim C10: one issue per Issue Type marker line -/

/-- Number of lines of the response whose trimmed form starts with
`- **Issue Type**:` (the claim's counting of marker lines). -/
def issueMarkerCount (s : Str) : Nat :=
  (splitNl s).countP fun l => issueTypeMarker.isPrefixOf (trim l)

theorem parseLines_length (ls : List Str) :
    ∀ cur : Option Issue,
      (parseLines cur ls).length =
        ls.countP (fun l => issueTypeMarker.isPrefixOf (trim l)) +
          (match cur with | some _ => 1 | none => 0) := by
  induction ls with
  | nil =>
    intro cur
    cases cur <;> simp [parseLines]
  | cons l ls ih =>
    intro cur
    by_cases hmark : issueTypeMarker.isPrefixOf (trim l)
    · cases cur with
      | some i =>
        simp [parseLines, hmark, ih, List.countP_cons]
        try omega
      | none =>
        simp [parseLines, hmark, ih, List.countP_cons]
        try omega
    · cases cur with
      | none =>
        simp [parseLines, hmark, ih, List.countP_cons]
        try omega
      | some i =>
        simp only [parseLines, hmark, Bool.false_eq_true, if_false, List.countP_cons]
        split_ifs <;> simp [ih, hmark]

/-- C10: for every input string, `parseReview` returns exactly one
issue per line whose trimmed form starts with `- **Issue Type**:` —
each marker opens one issue, the pending issue is pushed when a new
marker is seen, and the last pending issue is pushed at end of input. -/
theorem parseReview_issue_count (s : Str) :
    (parseReview s).issues.length = issueMarkerCount s := by
  have h := parseLines_length (splitNl s) none
  simpa [parseReview, issueMarkerCount] using h

/-! ### Claim C7: severity default, `N/A` lines, non-numeric lines -/

/-- If `m2` is a prefix of `t` and `m1` is incomparable with `m2`, then
`m1` is not a prefix of `t` (prefixes of a list are totally ordered). -/
theorem not_prefix_of_prefix_incomp {m1 m2 t : Str} (h : m2 <+: t)
    (h1 : ¬ m1 <+: m2) (h2 : ¬ m2 <+: m1) : ¬ m1 <+: t := fun hm1 =>
  ( List.prefix_or_prefix_of_prefix hm1 h).elim h1 h2

theorem isPrefixOf_false_of_prefix_incomp {m1 m2 t : Str}
    (h : m2.isPrefixOf t = true) (h1 : ¬ m1 <+: m2) (h2 : ¬ m2 <+: m1) :
    m1.isPrefixOf t = false := by
  rw [← Bool.not_eq_true, List.isPrefixOf_iff_prefix]
  exact not_prefix_of_prefix_incomp ( List.isPrefixOf_iff_prefix.1 h) h1 h2

theorem jsParseIntMag_no_digits {r : Str} (h : ∀ c ∈ r, c.isDigit = false) :
    jsParseIntMag r = none := by
  have hhex : isHexPre r = false := by
    cases r with
    | nil => rfl
    | cons a t =>
      cases t with
      | nil => rfl
      | cons b t' =>
        show (a == '0' && (b == 'x' || b == 'X')) = false
        have ha : (a == '0') = false := by
          by_cases h0 : a = '0'
          · subst h0
            exact absurd (h '0' (by simp)) (by decide)
          · simp [h0]
        simp [ha]
  have htake : r.takeWhile Char.isDigit = [] := by
    cases r with
    | nil => rfl
    | cons a t => simp [List.takeWhile_cons, h a (by simp)]
  rw [jsParseIntMag, hhex]
  simp [htake]

theorem jsParseInt_no_digits {v : Str} (h : ∀ c ∈ v, c.isDigit = false) :
    jsParseInt v = .nan := by
  have hsub : ∀ c ∈ v.dropWhile isWS, c ∈ v :=
    fun c hc => (List.dropWhile_sublist isWS).subset hc
  rw [jsParseInt]
  cases hd : v.dropWhile isWS with
  | nil => simp [jsParseIntMag_no_digits (by simp : ∀ c ∈ ([] : Str), c.isDigit = false)]
  | cons c r =>
    have hr : ∀ x ∈ (c :: r : Str), x.isDigit = false :=
      fun x hx => h x (hsub x (hd ▸ hx))
    have hrt : ∀ x ∈ (r : Str), x.isDigit = false :=
      fun x hx => hr x (List.mem_cons_of_mem _ hx)
    simp only [hd, List.headD_cons, List.tail_cons, jsParseIntMag_no_digits hr,
      jsParseIntMag_no_digits hrt]
    split_ifs <;> rfl

theorem parseLines_severity_default (ls : List Str)
    (h : ∀ l ∈ ls, severityMarker.isPrefixOf (trim l) = false) :
    ∀ cur : Option Issue, (∀ j, cur = some j → j.severity = "MEDIUM".data) →
      ∀ i ∈ parseLines cur ls, i.severity = "MEDIUM".data := by
  induction ls with
  | nil =>
    intro cur hcur i hi
    cases cur with
    | none => simp [parseLines] at hi
    | some j =>
      simp only [parseLines, List.mem_singleton] at hi
      subst hi
      exact hcur i rfl
  | cons l ls ih =>
    intro cur hcur i hi
    have hl := h l (by simp)
    have hrest : ∀ x ∈ ls, severityMarker.isPrefixOf (trim x) = false :=
      fun x hx => h x (List.mem_cons_of_mem _ hx)
    by_cases hmark : issueTypeMarker.isPrefixOf (trim l)
    · cases cur with
      | some j =>
        simp only [parseLines, hmark, if_pos] at hi
        rcases List.mem_cons.1 hi with rfl | h2
        · exact hcur i rfl
        · exact ih hrest _ (fun k hk => by injection hk with hk; subst hk; rfl) i h2
      | none =>
        simp only [parseLines, hmark, if_pos] at hi
        exact ih hrest _ (fun k hk => by injection hk with hk; subst hk; rfl) i hi
    · cases cur with
      | none =>
        simp only [parseLines, hmark, Bool.false_eq_true, if_false] at hi
        exact ih hrest _ (fun k hk => by cases hk) i hi
      | some j =>
        simp only [parseLines, hmark, Bool.false_eq_true, if_false, hl] at hi
        split_ifs at hi <;>
          exact ih hrest _
            (fun k hk => by injection hk with hk; subst hk; simp [hcur j rfl]) i hi

/-- C7 (amended): in `parseReview` every issue starts with severity
`MEDIUM` (changed only by a later `- **Severity**:` line: a response
with no such line yields only `MEDIUM` issues); a `- **Line**:` line
whose value is the literal `N/A` sets the line to `null`; and a
`- **Line**:` line whose value contains no digit sets the line to the
number `NaN` (not to `null`), without raising an error. -/
theorem parseReview_severity_line_handling :
    (∀ ls : List Str, (∀ l ∈ ls, severityMarker.isPrefixOf (trim l) = false) →
      ∀ i ∈ parseLines none ls, i.severity = "MEDIUM".data) ∧
    (∀ (l : Str) (i : Issue) (ls : List Str),
      lineMarker.isPrefixOf (trim l) = true →
      extractValue (trim l) = "N/A".data →
      parseLines (some i) (l :: ls) =
        parseLines (some { i with line := none }) ls) ∧
    (∀ (l : Str) (i : Issue) (ls : List Str),
      lineMarker.isPrefixOf (trim l) = true →
      extractValue (trim l) ≠ "N/A".data →
      (∀ c ∈ extractValue (trim l), c.isDigit = false) →
      parseLines (some i) (l :: ls) =
        parseLines (some { i with line := some JSNum.nan }) ls) := by
  refine ⟨?_, ?_, ?_⟩
  · intro ls h i hi
    exact parseLines_severity_default ls h none (fun k hk => by cases hk) i hi
  · intro l i ls hline hval
    have hit : issueTypeMarker.isPrefixOf (trim l) = false :=
      isPrefixOf_false_of_prefix_incomp hline (by decide) (by decide)
    have hsev : severityMarker.isPrefixOf (trim l) = false :=
      isPrefixOf_false_of_prefix_incomp hline (by decide) (by decide)
    simp only [parseLines, hit, Bool.false_eq_true, if_false, hsev, hline, if_pos,
      hval, ne_eq, not_true_eq_false, if_false, ite_false]
  · intro l i ls hline hna hnd
    have hit : issueTypeMarker.isPrefixOf (trim l) = false :=
      isPrefixOf_false_of_prefix_incomp hline (by decide) (by decide)
    have hsev : severityMarker.isPrefixOf (trim l) = false :=
      isPrefixOf_false_of_prefix_incomp hline (by decide) (by decide)
    simp only [parseLines, hit, Bool.false_eq_true, if_false, hsev, hline, if_pos,
      ne_eq, hna, not_false_eq_true, if_true, ite_true, jsParseInt_no_digits hnd]

/-- Witness for C7's amended theorem at concrete inputs. -/
theorem parseReview_severity_line_handling_witness :
    (∀ i ∈ parseLines none (splitNl "intro\n- **Issue Type**: BUG\n- **Line**: 3".data),
      i.severity = "MEDIUM".data) ∧
    parseLines (some (emptyIssue "BUG".data)) ["- **Line**: N/A".data] =
      parseLines (some { emptyIssue "BUG".data with line := none }) [] ∧
    parseLines (some (emptyIssue "BUG".data)) ["- **Line**: abc".data] =
      parseLines (some { emptyIssue "BUG".data with line := some JSNum.nan }) [] :=
  ⟨parseReview_severity_line_handling.1 _ (by decide),
   parseReview_severity_line_handling.2.1 _ _ [] (by decide) (by decide),
   parseReview_severity_line_handling.2.2 _ _ [] (by decide) (by decide) (by decide)⟩

/-- C7 as frozen is false on the code: on a `- **Line**:` line with the
non-numeric value `abc`, `parseReview` stores the number `NaN` in the
issue's `line` field, not `null`. -/
theorem parseReview_nonnumeric_line_counterexample :
    (parseReview "- **Issue Type**: BUG\n- **Line**: abc".data).issues.map Issue.line =
      [some JSNum.nan] ∧ some JSNum.nan ≠ (none : Option JSNum) := by
  constructor
  · decide
  · decide

/-! ### Claim C9: summary extraction -/

theorem dropWhile_head_false {p : Char → Bool} :
    ∀ {l t : Str} {c : Char}, l.dropWhile p = c :: t → p c = false := by
  intro l
  induction l with
  | nil => intro t c h; exact absurd h (by simp)
  | cons x xs ih =>
    intro t c h
    rw [List.dropWhile_cons] at h
    by_cases hx : p x
    · rw [if_pos hx] at h
      exact ih h
    · rw [if_neg hx] at h
      injection h with h1 _
      subst h1
      simpa using hx

theorem trimRight_idem (s : Str) : trimRight (trimRight s) = trimRight s := by
  induction s with
  | nil => rfl
  | cons c cs ih =>
    rw [trimRight]
    cases hcs : trimRight cs with
    | nil =>
      by_cases hw : isWS c
      · simp [hw, trimRight]
      · simp [hw, trimRight]
    | cons r rs =>
      rw [trimRight, ← hcs, ih, hcs]

theorem trimLeft_trim (s : Str) : trimLeft (trim s) = trim s := by
  rw [trim]
  cases htr : trimRight (trimLeft s) with
  | nil => rfl
  | cons c t =>
    have hpre : trimRight (trimLeft s) <+: trimLeft s := prefix_trimRight _
    rw [htr] at hpre
    obtain ⟨u, hu⟩ := hpre
    have hc : isWS c = false := by
      cases hdw : trimLeft s with
      | nil => rw [hdw] at hu; exact absurd hu.symm (by simp)
      | cons d t' =>
        have hd : isWS d = false := dropWhile_head_false hdw
        rw [hdw] at hu
        injection hu with h1 _
        subst h1
        exact hd
    exact trimLeft_cons_of_not_ws t hc

theorem trim_trim (s : Str) : trim (trim s) = trim s := by
  rw [trim, trimLeft_trim, trim, trimRight_idem]

theorem intercalate_cons₂ (x : Char) (a b : Str) (t : List Str) :
    List.intercalate [x] (a :: b :: t) = a ++ x :: List.intercalate [x] (b :: t) := by
  rw [List.intercalate, List.intersperse_cons_cons, List.flatten_cons, List.flatten_cons,
    List.intercalate]
  simp

theorem joinSpace_ne_nil {a : Str} (ha : a ≠ []) (t : List Str) :
    joinSpace (a :: t) ≠ [] := by
  cases t with
  | nil => simpa [joinSpace, List.intercalate] using ha
  | cons b t' =>
    rw [joinSpace, intercalate_cons₂]
    intro h
    exact ha (List.append_eq_nil.1 h).1

theorem head_not_ws_of_trimmed {c : Char} {s : Str} (h : trim (c :: s) = c :: s) :
    isWS c = false := by
  have h1 : trimLeft (c :: s) = c :: s := (trim_eq_self_parts h).1
  by_cases hw : isWS c = true
  · rw [trimLeft, List.dropWhile_cons, if_pos hw] at h1
    have hlen : (List.dropWhile isWS s).length ≤ s.length :=
      (List.dropWhile_sublist _).length_le
    have := congrArg List.length h1
    simp at this
    omega
  · simpa using hw

theorem trim_joinSpace : ∀ {ls : List Str}, (∀ l ∈ ls, trim l = l ∧ l ≠ []) →
    trim (joinSpace ls) = joinSpace ls
  | [], _ => rfl
  | [a], h => by
    have := (h a (by simp)).1
    simpa [joinSpace, List.intercalate] using this
  | a :: b :: t, h => by
    obtain ⟨ha, hane⟩ := h a (by simp)
    obtain ⟨c, a', rfl⟩ : ∃ c a', a = c :: a' := by
      cases a with
      | nil => exact absurd rfl hane
      | cons c a' => exact ⟨c, a', rfl⟩
    have hrest : trim (joinSpace (b :: t)) = joinSpace (b :: t) :=
      trim_joinSpace fun l hl => h l (List.mem_cons_of_mem _ hl)
    have hbne : b ≠ [] := (h b (by simp)).2
    have hne : joinSpace (b :: t) ≠ [] := joinSpace_ne_nil hbne t
    rw [joinSpace, intercalate_cons₂]
    have := trim_marker_line rfl (head_not_ws_of_trimmed ha)
      (trim_eq_self_parts ha).2 hrest
    rw [show (List.intercalate [' '] (b :: t)) = joinSpace (b :: t) from rfl, this,
      if_neg hne]

theorem summaryLines_eq (ls : List Str) :
    summaryLines ls =
      ((ls.takeWhile fun l => !(bulletMarker.isPrefixOf (trim l))).map trim).filter
        (fun t => !t.isEmpty) := by
  induction ls with
  | nil => rfl
  | cons l ls ih =>
    by_cases hb : bulletMarker.isPrefixOf (trim l)
    · simp [summaryLines, List.takeWhile_cons, hb]
    · by_cases he : (trim l).isEmpty
      · simp [summaryLines, List.takeWhile_cons, hb, he, ih]
      · simp [summaryLines, List.takeWhile_cons, hb, he, ih]

/-- Claim-side reading of C9: collect the trimmed non-empty lines up to
(excluding) the first trimmed line starting with `- **`, join them with
a single space, and fall back to the fixed default when empty. -/
def claimSummary (s : Str) : Str :=
  let collected :=
    (((splitNl s).takeWhile fun l => !(bulletMarker.isPrefixOf (trim l))).map trim).filter
      fun t => !t.isEmpty
  if collected.isEmpty then defaultSummary else joinSpace collected

/-- C9: `extractSummary` collects the trimmed non-empty lines that do
not start with `- **`, stopping at the first trimmed line that does,
joins them with a single space, and returns the fixed default summary
when the result is empty. -/
theorem extractSummary_spec (s : Str) : extractSummary s = claimSummary s := by
  rw [extractSummary, claimSummary, summaryLines_eq]
  have hc : ∀ l ∈ (((splitNl s).takeWhile
      fun l => !(bulletMarker.isPrefixOf (trim l))).map trim).filter
        (fun t => !t.isEmpty), trim l = l ∧ l ≠ [] := by
    intro l hl
    obtain ⟨hmem, hne⟩ := List.mem_filter.1 hl
    obtain ⟨x, -, rfl⟩ := List.mem_map.1 hmem
    refine ⟨trim_trim x, ?_⟩
    simpa [List.isEmpty_iff] using hne
  cases hcol : (((splitNl s).takeWhile
      fun l => !(bulletMarker.isPrefixOf (trim l))).map trim).filter
        (fun t => !t.isEmpty) with
  | nil => rfl
  | cons a t =>
    rw [hcol] at hc
    have hane : a ≠ [] := (hc a (by simp)).2
    have hne : joinSpace (a :: t) ≠ [] := joinSpace_ne_nil hane t
    rw [trim_joinSpace hc]
    simp [hne, List.isEmpty_iff]

/-! ### Claim C3: idempotence of `cleanDiff` -/

theorem prefix_append_cons_not_mem {c : Char} {b : Str} :
    ∀ {a sub : Str}, c ∉ sub → sub <+: a ++ c :: b → sub <+: a := by
  intro a
  induction a with
  | nil =>
    intro sub hc h
    cases sub with
    | nil => exact List.nil_prefix
    | cons s0 st =>
      rw [List.nil_append] at h
      obtain ⟨rfl, -⟩ := (List.cons_prefix_cons).1 h
      exact absurd (List.mem_cons_self _ _) hc
  | cons x a' ih =>
    intro sub hc h
    cases sub with
    | nil => exact List.nil_prefix
    | cons s0 st =>
      rw [List.cons_append] at h
      obtain ⟨rfl, hst⟩ := (List.cons_prefix_cons).1 h
      exact (List.cons_prefix_cons).2
        ⟨rfl, ih (fun hmem => hc (List.mem_cons_of_mem _ hmem)) hst⟩

theorem infix_append_cons_not_mem {c : Char} {b : Str} :
    ∀ {a sub : Str}, c ∉ sub → sub <:+: a ++ c :: b → sub <:+: a ∨ sub <:+: b := by
  intro a
  induction a with
  | nil =>
    intro sub hc h
    rw [List.nil_append] at h
    rcases List.infix_cons_iff.1 h with hpre | hinf
    · cases sub with
      | nil => exact Or.inl List.nil_infix
      | cons s0 st =>
        obtain ⟨rfl, -⟩ := (List.cons_prefix_cons).1 hpre
        exact absurd (List.mem_cons_self _ _) hc
    · exact Or.inr hinf
  | cons x a' ih =>
    intro sub hc h
    rw [List.cons_append] at h
    rcases List.infix_cons_iff.1 h with hpre | hinf
    · have hpre' : sub <+: (x :: a') ++ c :: b := by rwa [List.cons_append]
      exact Or.inl (prefix_append_cons_not_mem hc hpre').isInfix
    · rcases ih hc hinf with h1 | h2
      · exact Or.inl (List.infix_cons h1)
      · exact Or.inr h2

theorem infix_joinNl_elem {sub : Str} (hne : sub ≠ []) (hnl : '\n' ∉ sub) :
    ∀ {ls : List Str}, sub <:+: joinNl ls → ∃ l ∈ ls, sub <:+: l := by
  intro ls
  induction ls with
  | nil =>
    intro h
    rw [show joinNl [] = [] from rfl] at h
    exact absurd (List.infix_nil.1 h) hne
  | cons a ls' ih =>
    intro h
    cases ls' with
    | nil =>
      rw [show joinNl [a] = a from by simp [joinNl, List.intercalate]] at h
      exact ⟨a, by simp, h⟩
    | cons b t =>
      rw [show joinNl (a :: b :: t) = a ++ '\n' :: joinNl (b :: t) from by
        rw [joinNl, intercalate_cons₂]; rfl] at h
      rcases infix_append_cons_not_mem hnl h with h1 | h2
      · exact ⟨a, by simp, h1⟩
      · obtain ⟨l, hl, hsubl⟩ := ih h2
        exact ⟨l, List.mem_cons_of_mem _ hl, hsubl⟩

theorem cleanDiff_of_no_binary {d : Str} (h : includesSub d binaryMarker = false) :
    cleanDiff d = joinNl ((splitNl d).filter keepLine) := by
  rw [cleanDiff, if_neg (by simp [h])]

/-- C3 (amended): `cleanDiff` is idempotent on every diff that does not
contain the binary-file indicator `Binary files differ`; on a diff that
does contain it, `cleanDiff` returns the fixed placeholder, but a
second application of `cleanDiff` yields the empty string (the
placeholder line starts with `/`, which the line filter drops), so
idempotence fails exactly on binary-indicating diffs. -/
theorem cleanDiff_idem :
    (∀ d : Str, includesSub d binaryMarker = false →
      cleanDiff (cleanDiff d) = cleanDiff d) ∧
    (∀ d : Str, includesSub d binaryMarker = true →
      cleanDiff d = binaryPlaceholder ∧ cleanDiff (cleanDiff d) = []) := by
  constructor
  · intro d h
    have hmne : binaryMarker ≠ [] := by decide
    have hmnl : '\n' ∉ binaryMarker := by decide
    have hd := cleanDiff_of_no_binary h
    rw [hd]
    have h2 : includesSub (joinNl ((splitNl d).filter keepLine)) binaryMarker = false := by
      rw [includesSub, decide_eq_false_iff_not]
      intro hinf
      obtain ⟨l, hl, hsub⟩ := infix_joinNl_elem hmne hmnl hinf
      have hld : l ∈ splitNl d := List.mem_of_mem_filter hl
      have hdd : binaryMarker <:+: d := hsub.trans (infix_of_mem_splitNl hld)
      rw [includesSub, decide_eq_false_iff_not] at h
      exact h hdd
    rw [cleanDiff_of_no_binary h2]
    cases hk : (splitNl d).filter keepLine with
    | nil => rfl
    | cons a t =>
      have hsj : splitNl (joinNl (a :: t)) = a :: t :=
        splitNl_joinNl
          (fun l hl => mem_splitNl_nl_free (List.mem_of_mem_filter (hk ▸ hl)))
          (by simp)
      rw [hsj, List.filter_eq_self.2 fun x hx => List.of_mem_filter (hk ▸ hx)]
  · intro d h
    have h1 : cleanDiff d = binaryPlaceholder := by
      rw [cleanDiff, if_pos (by simp [h])]
    exact ⟨h1, by rw [h1]; rfl⟩

/-- Witness for C3's amended theorem at concrete diffs. -/
theorem cleanDiff_idem_witness :
    cleanDiff (cleanDiff "@@ -1 +1 @@\n+x\nnoise".data) =
      cleanDiff "@@ -1 +1 @@\n+x\nnoise".data ∧
    cleanDiff "Binary files differ".data = binaryPlaceholder ∧
    cleanDiff (cleanDiff "Binary files differ".data) = [] :=
  ⟨cleanDiff_idem.1 _ (by decide),
   (cleanDiff_idem.2 _ (by decide)).1,
   (cleanDiff_idem.2 _ (by decide)).2⟩

/-- C3 as frozen is false on the code: on the binary-indicating diff
`Binary files differ`, `cleanDiff` returns the fixed placeholder whose
single line starts with `/`, so the second application drops it and
returns the empty string instead of the placeholder. -/
theorem cleanDiff_not_idempotent_counterexample :
    cleanDiff (cleanDiff "Binary files differ".data) ≠
      cleanDiff "Binary files differ".data := by decide

/-! ### Claim C4: `extractAddedLines` -/

theorem isPrefixOf_cons_false {c d : Char} (h : c ≠ d) (p s : Str) :
    (c :: p).isPrefixOf (d :: s) = false := by
  rw [← Bool.not_eq_true, List.isPrefixOf_iff_prefix]
  intro hp
  exact h ((List.cons_prefix_cons).1 hp).1

theorem singleton_isPrefixOf_cons (c : Char) (t : Str) :
    ([c]).isPrefixOf (c :: t) = true := by
  rw [List.isPrefixOf_iff_prefix]
  exact (List.cons_prefix_cons).2 ⟨rfl, List.nil_prefix⟩

theorem extractLoop_no_hunk (ls : List Str)
    (h : ∀ l ∈ ls, ("@@".data).isPrefixOf l = false) :
    ∀ cur : Int, extractLoop ls cur false = [] := by
  induction ls with
  | nil => intro cur; rfl
  | cons l ls ih =>
    intro cur
    simp only [extractLoop, h l (by simp), Bool.false_eq_true, if_false,
      Bool.not_false, if_true]
    exact ih (fun x hx => h x (List.mem_cons_of_mem _ hx)) cur

/-- The concrete diff of C4's test vector. -/
def exampleDiffC4 : Str :=
  "@@ -1,3 +1,4 @@\n function test() \x7b\n+  console.log(1);\n   return true;\n \x7d".data

/-- C4: `extractAddedLines` (1) on the claim's concrete diff yields
exactly one entry with line number 2 and content `  console.log(1);`;
(2) records nothing when no line starts a hunk header; (3) a hunk
header whose regex match captures `c` seeds the counter at `c - 1` and
activates recording; in a hunk, (4) a deletion line neither records nor
increments, (5) a context line only increments, and (6) an addition
line that is not a `+++` header records `{counter+1, line without the
leading +}` and increments. -/
theorem extractAddedLines_spec :
    extractAddedLines exampleDiffC4 = [⟨2, "  console.log(1);".data⟩] ∧
    (∀ d : Str, (∀ l ∈ splitNl d, ("@@".data).isPrefixOf l = false) →
      extractAddedLines d = []) ∧
    (∀ (l : Str) (ls : List Str) (cur : Int) (b : Bool) (cap : Str),
      ("@@".data).isPrefixOf l = true → searchHunk l = some cap →
      extractLoop (l :: ls) cur b = extractLoop ls ((digitsVal cap : Int) - 1) true) ∧
    (∀ (t : Str) (ls : List Str) (cur : Int),
      extractLoop (('-' :: t) :: ls) cur true = extractLoop ls cur true) ∧
    (∀ (t : Str) (ls : List Str) (cur : Int),
      extractLoop ((' ' :: t) :: ls) cur true = extractLoop ls (cur + 1) true) ∧
    (∀ (t : Str) (ls : List Str) (cur : Int),
      ("+++".data).isPrefixOf ('+' :: t) = false →
      extractLoop (('+' :: t) :: ls) cur true =
        ⟨cur + 1, t⟩ :: extractLoop ls (cur + 1) true) := by
  refine ⟨by decide, ?_, ?_, ?_, ?_, ?_⟩
  · intro d h
    exact extractLoop_no_hunk (splitNl d) h 0
  · intro l ls cur b cap hpre hcap
    simp only [extractLoop, hpre, if_true, hcap]
  · intro t ls cur
    have h1 : ("@@".data).isPrefixOf ('-' :: t) = false :=
      isPrefixOf_cons_false (by decide) _ _
    have h2 : ("+".data).isPrefixOf ('-' :: t) = false :=
      isPrefixOf_cons_false (by decide) _ _
    have h3 : (" ".data).isPrefixOf ('-' :: t) = false :=
      isPrefixOf_cons_false (by decide) _ _
    simp only [extractLoop, h1, h2, h3, Bool.false_eq_true, if_false, Bool.not_true,
      Bool.false_and, Bool.or_self, List.nil_append]
  · intro t ls cur
    have h1 : ("@@".data).isPrefixOf (' ' :: t) = false :=
      isPrefixOf_cons_false (by decide) _ _
    have h2 : ("+".data).isPrefixOf (' ' :: t) = false :=
      isPrefixOf_cons_false (by decide) _ _
    have h3 : (" ".data).isPrefixOf (' ' :: t) = true :=
      singleton_isPrefixOf_cons ' ' t
    simp only [extractLoop, h1, h2, h3, Bool.false_eq_true, if_false, Bool.not_true,
      Bool.false_and, Bool.true_or, if_true, List.nil_append]
  · intro t ls cur hppp
    have h1 : ("@@".data).isPrefixOf ('+' :: t) = false :=
      isPrefixOf_cons_false (by decide) _ _
    have h2 : ("+".data).isPrefixOf ('+' :: t) = true :=
      singleton_isPrefixOf_cons '+' t
    have h3 : (" ".data).isPrefixOf ('+' :: t) = false :=
      isPrefixOf_cons_false (by decide) _ _
    simp only [extractLoop, h1, h2, h3, hppp, Bool.false_eq_true, if_false,
      Bool.not_true, Bool.not_false, Bool.true_and, if_true, Bool.or_true,
      List.drop_succ_cons, List.drop_zero, List.singleton_append]

/-- Witness for C4's theorem at concrete inputs. -/
theorem extractAddedLines_spec_witness :
    extractAddedLines "+a\n b".data = [] ∧
    extractLoop ["@@ -1,3 +5,4 @@".data, "+z".data] 0 false =
      extractLoop ["+z".data] ((digitsVal "5".data : Int) - 1) true ∧
    extractLoop ["-d".data] 7 true = extractLoop [] 7 true ∧
    extractLoop [" c".data] 7 true = extractLoop [] (7 + 1) true ∧
    extractLoop ["+c".data] 7 true = ⟨7 + 1, "c".data⟩ :: extractLoop [] (7 + 1) true :=
  ⟨extractAddedLines_spec.2.1 _ (by decide),
   extractAddedLines_spec.2.2.1 _ _ 0 false "5".data (by decide) (by decide),
   extractAddedLines_spec.2.2.2.1 "d".data [] 7,
   extractAddedLines_spec.2.2.2.2.1 "c".data [] 7,
   extractAddedLines_spec.2.2.2.2.2 "c".data [] 7 (by decide)⟩

/-! ### Claim C5: filtering of unsupported-language files -/

/-- C5 (amended): a change with non-empty diff whose filename matches
no skip pattern, whose diff does not exceed the configured
max-diff-size, and whose detected language is unsupported, is silently
dropped by `parseFileChange`. (Not "regardless of the diff's size":
the size check runs before the language check, so an over-size change
with an unsupported language is retained as a too-large record.) -/
theorem parseFileChange_unsupported_dropped (cfg : Config) (change : ChangeRecord)
    (h1 : (trim change.diff).isEmpty = false)
    (h2 : shouldSkipFile cfg change.new_path = false)
    (h3 : change.diff.length ≤ cfg.maxDiffSize)
    (h4 : isLanguageSupported cfg (detectLanguage change.new_path) = false) :
    parseFileChange cfg change = none := by
  rw [parseFileChange, if_neg (by simp [h1]), if_neg (by simp [h2]),
    if_neg (by omega)]
  simp only [h4, Bool.not_false, if_true]

/-- Witness for C5's amended theorem at a concrete change record. -/
theorem parseFileChange_unsupported_dropped_witness :
    parseFileChange
      ⟨100, ["javascript".data], []⟩
      ⟨"a.py".data, "a.py".data, false, false, false, "@@ -1 +1 @@\n+x".data⟩ = none :=
  parseFileChange_unsupported_dropped _ _ (by decide) (by decide) (by decide) (by decide)

/-- C5 as frozen is false on the code: a change with non-empty diff,
matching no skip pattern and with an unsupported language, is NOT
dropped when its diff exceeds the configured max-diff-size — the size
check runs first and returns a too-large record. -/
theorem parseFileChange_unsupported_large_counterexample :
    (trim ("@@ -1 +1 @@\n+x".data)).isEmpty = false ∧
    shouldSkipFile ⟨5, ["javascript".data], []⟩ "a.py".data = false ∧
    isLanguageSupported ⟨5, ["javascript".data], []⟩ (detectLanguage "a.py".data) = false ∧
    parseFileChange
      ⟨5, ["javascript".data], []⟩
      ⟨"a.py".data, "a.py".data, false, false, false, "@@ -1 +1 @@\n+x".data⟩ ≠ none := by
  refine ⟨by decide, by decide, by decide, by decide⟩

/-! ### Claim C2: one file's failure never aborts the batch -/

theorem reviewFiles_eq_map (ai : ParsedFile → Except Str ParsedReview) :
    ∀ files : List ParsedFile, reviewFiles ai files = files.map (reviewOneFile ai) := by
  intro files
  induction files with
  | nil => rfl
  | cons f fs ih => rw [reviewFiles, ih, List.map_cons]

theorem reviewFiles_get (ai : ParsedFile → Except Str ParsedReview)
    (files : List ParsedFile) (k : Nat) (hk : k < files.length)
    (hk' : k < (reviewFiles ai files).length) :
    (reviewFiles ai files).get ⟨k, hk'⟩ = reviewOneFile ai (files.get ⟨k, hk⟩) := by
  have h := reviewFiles_eq_map ai files
  rw [List.get_of_eq h]
  simp [List.get_eq_getElem]

/-- C2: the per-file loop produces exactly one `FileReview` per
`ParsedFile`, in order — so one file's failure never aborts the batch —
and when the AI call for a non-too-large file throws with message `e`,
that file's entry is an errored review carrying `e` with an empty
issues list. -/
theorem reviewFiles_error_isolation :
    (∀ (ai : ParsedFile → Except Str ParsedReview) (files : List ParsedFile),
      (reviewFiles ai files).length = files.length) ∧
    (∀ (ai : ParsedFile → Except Str ParsedReview) (files : List ParsedFile)
      (k : Nat) (hk : k < files.length) (hk' : k < (reviewFiles ai files).length)
      (e : Str),
      (files.get ⟨k, hk⟩).tooLarge = false →
      ai (files.get ⟨k, hk⟩) = .error e →
      (reviewFiles ai files).get ⟨k, hk'⟩ =
          .errored (files.get ⟨k, hk⟩).filename e ∧
        ((reviewFiles ai files).get ⟨k, hk'⟩).issues = []) := by
  constructor
  · intro ai files
    rw [reviewFiles_eq_map, List.length_map]
  · intro ai files k hk hk' e htl herr
    have h := reviewFiles_get ai files k hk hk'
    have hone : reviewOneFile ai (files.get ⟨k, hk⟩) =
        .errored (files.get ⟨k, hk⟩).filename e := by
      simp only [List.get_eq_getElem] at htl
      rw [reviewOneFile, if_neg (by simp [htl]), herr]
    rw [h, hone]
    exact ⟨rfl, rfl⟩

/-- Witness for C2's theorem: one parsed file whose AI call throws. -/
theorem reviewFiles_error_isolation_witness :
    (reviewFiles (fun _ => Except.error "AI request failed".data)
        [{ filename := "f.js".data, language := "javascript".data,
           changeType := "modified".data, diff := "+x".data, tooLarge := false }]).length =
      1 ∧
    (reviewFiles (fun _ => Except.error "AI request failed".data)
        [{ filename := "f.js".data, language := "javascript".data,
           changeType := "modified".data, diff := "+x".data, tooLarge := false }]).get
        ⟨0, by decide⟩ =
      .errored "f.js".data "AI request failed".data ∧
    ((reviewFiles (fun _ => Except.error "AI request failed".data)
        [{ filename := "f.js".data, language := "javascript".data,
           changeType := "modified".data, diff := "+x".data, tooLarge := false }]).get
        ⟨0, by decide⟩).issues = [] := by
  refine ⟨reviewFiles_error_isolation.1 _ _, ?_, ?_⟩
  · exact (reviewFiles_error_isolation.2 _ _ 0 (by decide) (by decide) _ (by decide) rfl).1
  · exact (reviewFiles_error_isolation.2 _ _ 0 (by decide) (by decide) _ (by decide) rfl).2

/-! ### Claim C8: the rendered review comment -/

/-- The severities whose groups `generateReviewComment` actually emits
for a file's issues, in the renderer's iteration order. -/
def emittedSeverities (issues : List Issue) : List Str :=
  sevOrder.filter fun s => !(issues.filter fun i => i.severity = s).isEmpty

theorem emittedSeverities_perm {issues issues' : List Issue}
    (h : issues.Perm issues') :
    emittedSeverities issues = emittedSeverities issues' := by
  rw [emittedSeverities, emittedSeverities]
  refine List.filter_congr fun s _ => ?_
  have hl := (h.filter fun i => decide (i.severity = s)).length_eq
  have hiff : (issues.filter fun i => decide (i.severity = s)).isEmpty =
      (issues'.filter fun i => decide (i.severity = s)).isEmpty := by
    rcases hf : (issues.filter fun i => decide (i.severity = s)) with - | ⟨x, xs⟩ <;>
      rcases hf' : (issues'.filter fun i => decide (i.severity = s)) with - | ⟨y, ys⟩
    · rw [hf, hf']
    · rw [hf, hf'] at hl
      simp at hl
    · rw [hf, hf'] at hl
      simp at hl
    · rw [hf, hf']
      rfl
  exact congrArg (fun b => !b) hiff

/-- C8: (1) with zero total issues the comment is the fixed
congratulatory line (between header, per-file sections and footer);
(2) otherwise it is the summary block; (3–6) the summary block carries
the file count and total issues and omits the critical/security lines
exactly when the respective count is zero; (7) a normal file section
with issues emits the severity groups in the fixed order CRITICAL,
HIGH, MEDIUM, LOW; (8) a group is emitted iff it is non-empty; and
(9) which groups are emitted (and their order) is invariant under any
permutation of the issue list. -/
theorem generateReviewComment_spec :
    (∀ (reviews : List FileReview) (ts p m : Str), totalIssues reviews = 0 →
      generateReviewComment reviews ts p m =
        commentHeader ++ congratsLine ++
          (reviews.map renderFileSection).flatten ++ commentFooter ts p m) ∧
    (∀ (reviews : List FileReview) (ts p m : Str), totalIssues reviews ≠ 0 →
      generateReviewComment reviews ts p m =
        commentHeader ++ summaryBlock reviews ++
          (reviews.map renderFileSection).flatten ++ commentFooter ts p m) ∧
    (∀ reviews : List FileReview,
      criticalIssues reviews = 0 → securityIssues reviews = 0 →
      summaryBlock reviews =
        "📊 **Review Summary:**\n".data ++
          "- **Files Reviewed:** ".data ++ natToChars reviews.length ++ "\n".data ++
          "- **Total Issues:** ".data ++ natToChars (totalIssues reviews) ++ "\n".data ++
          "\n".data) ∧
    (∀ reviews : List FileReview,
      criticalIssues reviews = 0 → securityIssues reviews ≠ 0 →
      summaryBlock reviews =
        "📊 **Review Summary:**\n".data ++
          "- **Files Reviewed:** ".data ++ natToChars reviews.length ++ "\n".data ++
          "- **Total Issues:** ".data ++ natToChars (totalIssues reviews) ++ "\n".data ++
          ("- **Security Issues:** 🔒 ".data ++ natToChars (securityIssues reviews) ++
            "\n".data) ++
          "\n".data) ∧
    (∀ reviews : List FileReview,
      criticalIssues reviews ≠ 0 → securityIssues reviews = 0 →
      summaryBlock reviews =
        "📊 **Review Summary:**\n".data ++
          "- **Files Reviewed:** ".data ++ natToChars reviews.length ++ "\n".data ++
          "- **Total Issues:** ".data ++ natToChars (totalIssues reviews) ++ "\n".data ++
          ("- **Critical Issues:** ⚠️ ".data ++ natToChars (criticalIssues reviews) ++
            "\n".data) ++
          "\n".data) ∧
    (∀ reviews : List FileReview,
      criticalIssues reviews ≠ 0 → securityIssues reviews ≠ 0 →
      summaryBlock reviews =
        "📊 **Review Summary:**\n".data ++
          "- **Files Reviewed:** ".data ++ natToChars reviews.length ++ "\n".data ++
          "- **Total Issues:** ".data ++ natToChars (totalIssues reviews) ++ "\n".data ++
          ("- **Critical Issues:** ⚠️ ".data ++ natToChars (criticalIssues reviews) ++
            "\n".data) ++
          ("- **Security Issues:** 🔒 ".data ++ natToChars (securityIssues reviews) ++
            "\n".data) ++
          "\n".data) ∧
    (∀ (fn lg ct sm raw : Str) (issues : List Issue), issues ≠ [] →
      renderFileSection (.normal fn lg ct sm issues raw) =
        "### 📝 ".data ++ fn ++ "\n".data ++ "*".data ++
          natToChars issues.length ++ " issue(s) found*\n\n".data ++
          (["CRITICAL".data, "HIGH".data, "MEDIUM".data, "LOW".data].map
            (renderSeverityGroup issues)).flatten) ∧
    (∀ (issues : List Issue) (sev : Str),
      renderSeverityGroup issues sev = [] ↔
        (issues.filter fun i => i.severity = sev) = []) ∧
    (∀ issues issues' : List Issue, issues.Perm issues' →
      emittedSeverities issues = emittedSeverities issues') := by
  refine ⟨?_, ?_, ?_, ?_, ?_, ?_, ?_, ?_, fun _ _ h => emittedSeverities_perm h⟩
  · intro reviews ts p m h
    rw [generateReviewComment, if_pos h]
  · intro reviews ts p m h
    rw [generateReviewComment, if_neg h]
  · intro reviews h1 h2
    rw [summaryBlock, if_neg (by omega), if_neg (by omega)]
    simp
  · intro reviews h1 h2
    rw [summaryBlock, if_neg (by omega), if_pos (by omega)]
    simp
  · intro reviews h1 h2
    rw [summaryBlock, if_pos (by omega), if_neg (by omega)]
    simp
  · intro reviews h1 h2
    rw [summaryBlock, if_pos (by omega), if_pos (by omega)]
  · intro fn lg ct sm raw issues h
    rw [renderFileSection, if_neg (by simp [h])]
    rfl
  · intro issues sev
    rw [renderSeverityGroup]
    constructor
    · intro h
      by_cases he : (issues.filter fun i => i.severity = sev).isEmpty
      · simpa [List.isEmpty_iff] using he
      · rw [if_neg he] at h
        obtain ⟨h1, -⟩ := List.append_eq_nil.1 h
        obtain ⟨h1, -⟩ := List.append_eq_nil.1 h1
        obtain ⟨h1, -⟩ := List.append_eq_nil.1 h1
        obtain ⟨h1, -⟩ := List.append_eq_nil.1 h1
        obtain ⟨h1, -⟩ := List.append_eq_nil.1 h1
        exact absurd h1 (by decide)
    · intro h
      rw [if_pos (by simp [h])]

/-- Witness for C8's theorem on concrete review lists. -/
theorem generateReviewComment_spec_witness :
    generateReviewComment [.normal "a.js".data "javascript".data "modified".data
        "ok".data [] "raw".data] "TS".data "P".data "M".data =
      commentHeader ++ congratsLine ++
        ([FileReview.normal "a.js".data "javascript".data "modified".data
          "ok".data [] "raw".data].map renderFileSection).flatten ++
        commentFooter "TS".data "P".data "M".data ∧
    summaryBlock [.normal "a.js".data "javascript".data "modified".data "ok".data
        [{ type := "STYLE".data, severity := "LOW".data, line := none,
           description := "d".data, suggestion := [], exampleText := [] }] "raw".data] =
      "📊 **Review Summary:**\n".data ++
        "- **Files Reviewed:** ".data ++ natToChars 1 ++ "\n".data ++
        "- **Total Issues:** ".data ++ natToChars 1 ++ "\n".data ++ "\n".data ∧
    renderFileSection (.normal "a.js".data "javascript".data "modified".data "ok".data
        [{ type := "STYLE".data, severity := "LOW".data, line := none,
           description := "d".data, suggestion := [], exampleText := [] }] "raw".data) =
      "### 📝 ".data ++ "a.js".data ++ "\n".data ++ "*".data ++ natToChars 1 ++
        " issue(s) found*\n\n".data ++
        (["CRITICAL".data, "HIGH".data, "MEDIUM".data, "LOW".data].map
          (renderSeverityGroup
            [{ type := "STYLE".data, severity := "LOW".data, line := none,
               description := "d".data, suggestion := [], exampleText := [] }])).flatten ∧
    emittedSeverities
        [{ type := "STYLE".data, severity := "LOW".data, line := none,
           description := "d".data, suggestion := [], exampleText := [] },
         { type := "SECURITY".data, severity := "CRITICAL".data, line := none,
           description := "e".data, suggestion := [], exampleText := [] }] =
      emittedSeverities
        [{ type := "SECURITY".data, severity := "CRITICAL".data, line := none,
           description := "e".data, suggestion := [], exampleText := [] },
         { type := "STYLE".data, severity := "LOW".data, line := none,
           description := "d".data, suggestion := [], exampleText := [] }] := by
  refine ⟨generateReviewComment_spec.1 _ _ _ _ (by decide), ?_, ?_, ?_⟩
  · exact generateReviewComment_spec.2.2.1 _ (by decide) (by decide)
  · exact generateReviewComment_spec.2.2.2.2.2.2.1 _ _ _ _ _ _ (by decide)
  · exact generateReviewComment_spec.2.2.2.2.2.2.2.2 _ _ (List.Perm.swap _ _ [])

/-! ### Claim C6: `shouldSkipFile` pattern matching -/

/-- Declarative semantics of the translated glob regex: the token list
covers exactly the string, with `*` matching any sequence and `?` (and
an unescaped `.`) any single character, neither crossing a line
terminator, and literals compared case-insensitively. -/
inductive TokCover : List GlobTok → Str → Prop where
  | nil : TokCover [] []
  | anyChar {ts : List GlobTok} {s : Str} (c : Char) (hc : isLineTerm c = false)
      (h : TokCover ts s) : TokCover (.anyChar :: ts) (c :: s)
  | lit {ts : List GlobTok} {s : Str} (c d : Char) (hcd : d.toLower = c.toLower)
      (h : TokCover ts s) : TokCover (.lit c :: ts) (d :: s)
  | anySeq {ts : List GlobTok} {s : Str} (pre : Str)
      (hpre : ∀ c ∈ pre, isLineTerm c = false) (h : TokCover ts s) :
      TokCover (.anySeq :: ts) (pre ++ s)

theorem tokMatch_iff : ∀ (n : Nat) (s : Str), s.length = n → ∀ ts : List GlobTok,
    (tokMatch ts s = true ↔ ∃ s1 s2 : Str, s = s1 ++ s2 ∧ TokCover ts s1) := by
  intro n
  induction n using Nat.strong_induction_on with
  | _ n ihn =>
    intro s hsl ts
    induction ts with
    | nil =>
      simp only [tokMatch, true_iff]
      exact ⟨[], s, rfl, TokCover.nil⟩
    | cons t ts iht =>
      cases t with
      | anyChar =>
        cases s with
        | nil =>
          simp only [tokMatch, Bool.false_eq_true, false_iff]
          rintro ⟨s1, s2, heq, hcov⟩
          have hs1 : s1 = [] := (List.append_eq_nil.1 heq.symm).1
          subst hs1
          cases hcov
        | cons c cs =>
          simp only [tokMatch, Bool.and_eq_true, Bool.not_eq_true']
          constructor
          · rintro ⟨hterm, hrec⟩
            obtain ⟨s1, s2, heq, hcov⟩ :=
              (ihn cs.length (by simp at hsl; omega) cs rfl ts).1 hrec
            exact ⟨c :: s1, s2, by rw [List.cons_append, heq],
              TokCover.anyChar c hterm hcov⟩
          · rintro ⟨s1, s2, heq, hcov⟩
            cases hcov with
            | anyChar c' hc' hcov' =>
              rw [List.cons_append] at heq
              injection heq with h1 h2
              subst h1
              refine ⟨hc', ?_⟩
              exact (ihn cs.length (by simp at hsl; omega) cs rfl ts).2
                ⟨_, s2, h2, hcov'⟩
      | lit c =>
        cases s with
        | nil =>
          simp only [tokMatch, Bool.false_eq_true, false_iff]
          rintro ⟨s1, s2, heq, hcov⟩
          have hs1 : s1 = [] := (List.append_eq_nil.1 heq.symm).1
          subst hs1
          cases hcov
        | cons d cs =>
          simp only [tokMatch, Bool.and_eq_true, beq_iff_eq]
          constructor
          · rintro ⟨hcd, hrec⟩
            obtain ⟨s1, s2, heq, hcov⟩ :=
              (ihn cs.length (by simp at hsl; omega) cs rfl ts).1 hrec
            exact ⟨d :: s1, s2, by rw [List.cons_append, heq],
              TokCover.lit c d hcd hcov⟩
          · rintro ⟨s1, s2, heq, hcov⟩
            cases hcov with
            | lit c' d' hcd hcov' =>
              rw [List.cons_append] at heq
              injection heq with h1 h2
              subst h1
              refine ⟨hcd, ?_⟩
              exact (ihn cs.length (by simp at hsl; omega) cs rfl ts).2
                ⟨_, s2, h2, hcov'⟩
      | anySeq =>
        cases s with
        | nil =>
          simp only [tokMatch, Bool.or_false]
          constructor
          · intro h1
            obtain ⟨s1, s2, heq, hcov⟩ := iht.1 h1
            exact ⟨s1, s2, heq, TokCover.anySeq [] (by simp) hcov⟩
          · rintro ⟨s1, s2, heq, hcov⟩
            cases hcov with
            | @anySeq ts' u pre hpre hcov' =>
              have hs1 : pre ++ u = [] := (List.append_eq_nil.1 heq.symm).1
              rcases List.append_eq_nil.1 hs1 with ⟨hp, hu⟩
              subst hp
              subst hu
              have hs2 : s2 = [] := by simpa using heq.symm
              subst hs2
              exact iht.2 ⟨[], [], rfl, hcov'⟩
        | cons c cs =>
          simp only [tokMatch, Bool.or_eq_true, Bool.and_eq_true, Bool.not_eq_true']
          constructor
          · intro h
            rcases h with h1 | ⟨hterm, hrec⟩
            · obtain ⟨s1, s2, heq, hcov⟩ := iht.1 h1
              exact ⟨s1, s2, heq, TokCover.anySeq [] (by simp) hcov⟩
            · obtain ⟨s1, s2, heq, hcov⟩ :=
                (ihn cs.length (by simp at hsl; omega) cs rfl (.anySeq :: ts)).1 hrec
              cases hcov with
              | @anySeq ts' u pre hpre hcov' =>
                refine ⟨(c :: pre) ++ u, s2, ?_, TokCover.anySeq (c :: pre)
                  (fun x hx => by
                    rcases List.mem_cons.1 hx with rfl | hx'
                    · exact hterm
                    · exact hpre x hx') hcov'⟩
                rw [heq]
                simp [List.append_assoc]
          · rintro ⟨s1, s2, heq, hcov⟩
            cases hcov with
            | @anySeq ts' u pre hpre hcov' =>
              cases pre with
              | nil =>
                left
                rw [List.nil_append] at heq
                exact iht.2 ⟨u, s2, heq, hcov'⟩
              | cons c' pre' =>
                right
                rw [List.cons_append, List.cons_append] at heq
                injection heq with h1 h2
                subst h1
                refine ⟨hpre c (by simp), ?_⟩
                exact (ihn cs.length (by simp at hsl; omega) cs rfl
                  (.anySeq :: ts)).2 ⟨pre' ++ u, s2, h2, TokCover.anySeq pre'
                    (fun x hx => hpre x (List.mem_cons_of_mem _ hx)) hcov'⟩

theorem globSearch_iff (ts : List GlobTok) :
    ∀ s : Str, globSearch ts s = true ↔
      ∃ pre mid post : Str, s = pre ++ mid ++ post ∧ TokCover ts mid := by
  intro s
  induction s with
  | nil =>
    rw [globSearch]
    simp only [Bool.or_false]
    rw [tokMatch_iff ([] : Str).length [] rfl ts]
    constructor
    · rintro ⟨s1, s2, heq, hcov⟩
      exact ⟨[], s1, s2, by simpa using heq, hcov⟩
    · rintro ⟨pre, mid, post, heq, hcov⟩
      rcases List.append_eq_nil.1 heq.symm with ⟨h1, hpost⟩
      rcases List.append_eq_nil.1 h1 with ⟨hpre, hmid⟩
      subst hmid
      exact ⟨[], [], rfl, hcov⟩
  | cons c cs ih =>
    rw [globSearch]
    simp only [Bool.or_eq_true]
    constructor
    · intro h
      rcases h with h1 | h2
      · obtain ⟨s1, s2, heq, hcov⟩ :=
          (tokMatch_iff (c :: cs).length (c :: cs) rfl ts).1 h1
        exact ⟨[], s1, s2, by simpa using heq, hcov⟩
      · obtain ⟨pre, mid, post, heq, hcov⟩ := ih.1 h2
        exact ⟨c :: pre, mid, post, by simp [heq], hcov⟩
    · rintro ⟨pre, mid, post, heq, hcov⟩
      cases pre with
      | nil =>
        left
        rw [List.nil_append] at heq
        exact (tokMatch_iff (c :: cs).length (c :: cs) rfl ts).2 ⟨mid, post, heq, hcov⟩
      | cons c' pre' =>
        right
        rw [List.cons_append, List.cons_append] at heq
        injection heq with h1 h2
        exact ih.2 ⟨pre', mid, post, h2, hcov⟩

/-- C6's reading of one pattern test (as frozen): a pattern containing
`*` or `?` is matched as the translated case-insensitive regex, any
other pattern by exact equality or suffix. -/
def claimPatternMatches (filename pattern : Str) : Prop :=
  if '*' ∈ pattern ∨ '?' ∈ pattern then
    ∃ pre mid post : Str, filename = pre ++ mid ++ post ∧
      TokCover (globTokens pattern) mid
  else filename = pattern ∨ pattern <:+ filename

/-- The amended per-pattern semantics: only a pattern containing `*`
is translated to the regex; a pattern without `*` — even one containing
`?` — is matched literally by exact equality or suffix. -/
def amendedPatternMatches (filename pattern : Str) : Prop :=
  if '*' ∈ pattern then
    ∃ pre mid post : Str, filename = pre ++ mid ++ post ∧
      TokCover (globTokens pattern) mid
  else filename = pattern ∨ pattern <:+ filename

theorem matchesPattern_iff (filename p : Str) :
    matchesPattern filename p = true ↔ amendedPatternMatches filename p := by
  rw [matchesPattern, amendedPatternMatches]
  by_cases hs : '*' ∈ p
  · rw [if_pos hs, if_pos hs]
    exact globSearch_iff (globTokens p) filename
  · rw [if_neg hs, if_neg hs]
    rw [Bool.or_eq_true_iff]
    constructor
    · rintro (h | h)
      · exact Or.inl (by simpa using h)
      · exact Or.inr (List.isSuffixOf_iff_suffix.1 h)
    · rintro (h | h)
      · exact Or.inl (by simpa using h)
      · exact Or.inr (List.isSuffixOf_iff_suffix.2 h)

/-- C6 (amended): `shouldSkipFile` returns true iff some configured
pattern matches, where only a pattern containing `*` is translated to a
case-insensitive regex searched in the filename (`*` matching any
sequence, `?` — and an unescaped `.` — any single character), and any
pattern without `*` matches by exact equality or by suffix; the
`some`-evaluation short-circuits on the first matching pattern in list
order. -/
theorem shouldSkipFile_spec (cfg : Config) (filename : Str) :
    shouldSkipFile cfg filename = true ↔
      ∃ p ∈ cfg.skipFiles, amendedPatternMatches filename p := by
  rw [shouldSkipFile, List.any_eq_true]
  constructor
  · rintro ⟨p, hp, hm⟩
    exact ⟨p, hp, (matchesPattern_iff filename p).1 hm⟩
  · rintro ⟨p, hp, hm⟩
    exact ⟨p, hp, (matchesPattern_iff filename p).2 hm⟩

/-- C6 as frozen is false on the code: the pattern `a?c` (containing
`?` but no `*`) matches the filename `abc` under the claim's glob
translation, yet `shouldSkipFile` treats it literally and returns
false. -/
theorem shouldSkipFile_qmark_counterexample :
    claimPatternMatches "abc".data "a?c".data ∧
    shouldSkipFile ⟨0, [], ["a?c".data]⟩ "abc".data = false := by
  constructor
  · rw [claimPatternMatches, if_pos (by decide)]
    refine ⟨[], "abc".data, [], by decide, ?_⟩
    exact TokCover.lit 'a' 'a' rfl
      (TokCover.anyChar 'b' (by decide)
        (TokCover.lit 'c' 'c' rfl TokCover.nil))
  · decide

/-! ### Claim C1: parser round-trip -/

/-- A synthetic issue, as constructed by C1's claim before rendering. -/
structure SpecIssue where
  type : Str
  severity : Str
  line : Option Nat
  description : Str
  suggestion : Str
  exampleText : Str
deriving DecidableEq, Repr

/-- A single-line trimmed field value. -/
def WFField (v : Str) : Prop := trim v = v ∧ '\n' ∉ v

/-- C1's well-formedness of a synthetic issue: single-line trimmed
field values, a severity among the four levels, and a positive line
number when present. -/
def WFSpecIssue (i : SpecIssue) : Prop :=
  WFField i.type ∧
  i.severity ∈ ["CRITICAL".data, "HIGH".data, "MEDIUM".data, "LOW".data] ∧
  (∀ n ∈ i.line, 0 < n) ∧
  WFField i.description ∧ WFField i.suggestion ∧ WFField i.exampleText

/-- C1's rendering of one synthetic issue through the documented
markers (`N/A` when the line is absent). -/
def specRenderIssue (i : SpecIssue) : List Str :=
  [issueTypeMarker ++ ' ' :: i.type,
   severityMarker ++ ' ' :: i.severity,
   lineMarker ++ ' ' ::
     (match i.line with
      | some n => natToChars n
      | none => "N/A".data),
   descriptionMarker ++ ' ' :: i.description,
   suggestionMarker ++ ' ' :: i.suggestion,
   exampleMarker ++ ' ' :: i.exampleText]

/-- C1's rendering of a whole synthetic response. -/
def specRenderResponse (issues : List SpecIssue) : Str :=
  joinNl (issues.map specRenderIssue).flatten

/-- The parsed issue a synthetic issue should round-trip to (`line`
becomes the parsed number, `null` when absent). -/
def specToIssue (i : SpecIssue) : Issue :=
  { type := i.type, severity := i.severity,
    line := i.line.map fun n => JSNum.num (n : Int),
    description := i.description, suggestion := i.suggestion,
    exampleText := i.exampleText }

theorem extractValue_marker (pre v : Str) (hc : ':' ∉ pre) :
    extractValue ((pre ++ [':']) ++ ' ' :: v) = trim v := by
  have h : (pre ++ [':']) ++ ' ' :: v = pre ++ ':' :: (' ' :: v) := by simp
  rw [h, extractValue_append_colon hc, trim_cons_ws _ (by decide)]

theorem extractValue_marker_nil (pre : Str) (hc : ':' ∉ pre) :
    extractValue (pre ++ [':']) = [] := by
  have h : pre ++ [':'] = pre ++ ':' :: ([] : Str) := rfl
  rw [h, extractValue_append_colon hc]
  rfl

theorem isPrefixOf_false_marker (m1 m : Str) (h1 : ¬ m1 <+: m ++ [' '])
    (h2 : ¬ (m ++ [' ']) <+: m1) (v : Str) :
    m1.isPrefixOf (m ++ ' ' :: v) = false := by
  have h : m ++ ' ' :: v = (m ++ [' ']) ++ v := by simp
  rw [h]
  exact isPrefixOf_eq_false_of_incomp h1 h2 v

theorem parseLines_issueTypeLine_some (v : Str) (hv : trim v = v)
    (j : Issue) (ls : List Str) :
    parseLines (some j) ((issueTypeMarker ++ ' ' :: v) :: ls) =
      j :: parseLines (some (emptyIssue v)) ls := by
  have ht : trim (issueTypeMarker ++ ' ' :: v) =
      if v = [] then issueTypeMarker else issueTypeMarker ++ ' ' :: v :=
    trim_marker_line rfl (by decide) (by decide) hv
  rcases eq_or_ne v [] with rfl | hne
  · rw [if_pos rfl] at ht
    simp only [parseLines, ht]
    rw [show issueTypeMarker.isPrefixOf issueTypeMarker = true from by decide,
      if_pos rfl,
      show extractValue issueTypeMarker = [] from
        extractValue_marker_nil "- **Issue Type**".data (by decide)]
  · rw [if_neg hne] at ht
    simp only [parseLines, ht]
    rw [isPrefixOf_marker_self issueTypeMarker (' ' :: v), if_pos rfl,
      show extractValue (issueTypeMarker ++ ' ' :: v) = trim v from
        extractValue_marker "- **Issue Type**".data v (by decide), hv]

theorem parseLines_issueTypeLine_none (v : Str) (hv : trim v = v) (ls : List Str) :
    parseLines none ((issueTypeMarker ++ ' ' :: v) :: ls) =
      parseLines (some (emptyIssue v)) ls := by
  have ht : trim (issueTypeMarker ++ ' ' :: v) =
      if v = [] then issueTypeMarker else issueTypeMarker ++ ' ' :: v :=
    trim_marker_line rfl (by decide) (by decide) hv
  rcases eq_or_ne v [] with rfl | hne
  · rw [if_pos rfl] at ht
    simp only [parseLines, ht]
    rw [show issueTypeMarker.isPrefixOf issueTypeMarker = true from by decide,
      if_pos rfl,
      show extractValue issueTypeMarker = [] from
        extractValue_marker_nil "- **Issue Type**".data (by decide)]
  · rw [if_neg hne] at ht
    simp only [parseLines, ht]
    rw [isPrefixOf_marker_self issueTypeMarker (' ' :: v), if_pos rfl,
      show extractValue (issueTypeMarker ++ ' ' :: v) = trim v from
        extractValue_marker "- **Issue Type**".data v (by decide), hv]

theorem parseLines_severityLine (v : Str) (hv : trim v = v) (hne : v ≠ [])
    (j : Issue) (ls : List Str) :
    parseLines (some j) ((severityMarker ++ ' ' :: v) :: ls) =
      parseLines (some { j with severity := v }) ls := by
  have ht : trim (severityMarker ++ ' ' :: v) = severityMarker ++ ' ' :: v := by
    have h := trim_marker_line
      (show severityMarker = '-' :: " **Severity**:".data from rfl)
      (by decide) (by decide) hv
    rwa [if_neg hne] at h
  simp only [parseLines, ht]
  rw [isPrefixOf_false_marker issueTypeMarker severityMarker (by decide) (by decide) v]
  simp only [Bool.false_eq_true, if_false]
  rw [isPrefixOf_marker_self severityMarker (' ' :: v), if_pos rfl,
    show extractValue (severityMarker ++ ' ' :: v) = trim v from
      extractValue_marker "- **Severity**".data v (by decide), hv]

theorem parseLines_lineLine (v : Str) (hv : trim v = v) (hne : v ≠ [])
    (j : Issue) (ls : List Str) :
    parseLines (some j) ((lineMarker ++ ' ' :: v) :: ls) =
      parseLines
        (some { j with
          line := if v ≠ "N/A".data then some (jsParseInt v) else none }) ls := by
  have ht : trim (lineMarker ++ ' ' :: v) = lineMarker ++ ' ' :: v := by
    have h := trim_marker_line
      (show lineMarker = '-' :: " **Line**:".data from rfl)
      (by decide) (by decide) hv
    rwa [if_neg hne] at h
  simp only [parseLines, ht]
  rw [isPrefixOf_false_marker issueTypeMarker lineMarker (by decide) (by decide) v]
  simp only [Bool.false_eq_true, if_false]
  rw [isPrefixOf_false_marker severityMarker lineMarker (by decide) (by decide) v]
  simp only [Bool.false_eq_true, if_false]
  rw [isPrefixOf_marker_self lineMarker (' ' :: v), if_pos rfl,
    show extractValue (lineMarker ++ ' ' :: v) = trim v from
      extractValue_marker "- **Line**".data v (by decide), hv]

theorem parseLines_descriptionLine (v : Str) (hv : trim v = v)
    (j : Issue) (ls : List Str) :
    parseLines (some j) ((descriptionMarker ++ ' ' :: v) :: ls) =
      parseLines (some { j with description := v }) ls := by
  have ht := trim_marker_line
    (show descriptionMarker = '-' :: " **Description**:".data from rfl)
    (by decide) (by decide) hv
  rcases eq_or_ne v [] with rfl | hne
  · rw [if_pos rfl] at ht
    simp only [parseLines, ht]
    rw [show issueTypeMarker.isPrefixOf descriptionMarker = false from by decide]
    simp only [Bool.false_eq_true, if_false]
    rw [show severityMarker.isPrefixOf descriptionMarker = false from by decide]
    simp only [Bool.false_eq_true, if_false]
    rw [show lineMarker.isPrefixOf descriptionMarker = false from by decide]
    simp only [Bool.false_eq_true, if_false]
    rw [show descriptionMarker.isPrefixOf descriptionMarker = true from by decide,
      if_pos rfl,
      show extractValue descriptionMarker = [] from
        extractValue_marker_nil "- **Description**".data (by decide)]
  · rw [if_neg hne] at ht
    simp only [parseLines, ht]
    rw [isPrefixOf_false_marker issueTypeMarker descriptionMarker
      (by decide) (by decide) v]
    simp only [Bool.false_eq_true, if_false]
    rw [isPrefixOf_false_marker severityMarker descriptionMarker
      (by decide) (by decide) v]
    simp only [Bool.false_eq_true, if_false]
    rw [isPrefixOf_false_marker lineMarker descriptionMarker
      (by decide) (by decide) v]
    simp only [Bool.false_eq_true, if_false]
    rw [isPrefixOf_marker_self descriptionMarker (' ' :: v), if_pos rfl,
      show extractValue (descriptionMarker ++ ' ' :: v) = trim v from
        extractValue_marker "- **Description**".data v (by decide), hv]

theorem parseLines_suggestionLine (v : Str) (hv : trim v = v)
    (j : Issue) (ls : List Str) :
    parseLines (some j) ((suggestionMarker ++ ' ' :: v) :: ls) =
      parseLines (some { j with suggestion := v }) ls := by
  have ht := trim_marker_line
    (show suggestionMarker = '-' :: " **Suggestion**:".data from rfl)
    (by decide) (by decide) hv
  rcases eq_or_ne v [] with rfl | hne
  · rw [if_pos rfl] at ht
    simp only [parseLines, ht]
    rw [show issueTypeMarker.isPrefixOf suggestionMarker = false from by decide]
    simp only [Bool.false_eq_true, if_false]
    rw [show severityMarker.isPrefixOf suggestionMarker = false from by decide]
    simp only [Bool.false_eq_true, if_false]
    rw [show lineMarker.isPrefixOf suggestionMarker = false from by decide]
    simp only [Bool.false_eq_true, if_false]
    rw [show descriptionMarker.isPrefixOf suggestionMarker = false from by decide]
    simp only [Bool.false_eq_true, if_false]
    rw [show suggestionMarker.isPrefixOf suggestionMarker = true from by decide,
      if_pos rfl,
      show extractValue suggestionMarker = [] from
        extractValue_marker_nil "- **Suggestion**".data (by decide)]
  · rw [if_neg hne] at ht
    simp only [parseLines, ht]
    rw [isPrefixOf_false_marker issueTypeMarker suggestionMarker
      (by decide) (by decide) v]
    simp only [Bool.false_eq_true, if_false]
    rw [isPrefixOf_false_marker severityMarker suggestionMarker
      (by decide) (by decide) v]
    simp only [Bool.false_eq_true, if_false]
    rw [isPrefixOf_false_marker lineMarker suggestionMarker
      (by decide) (by decide) v]
    simp only [Bool.false_eq_true, if_false]
    rw [isPrefixOf_false_marker descriptionMarker suggestionMarker
      (by decide) (by decide) v]
    simp only [Bool.false_eq_true, if_false]
    rw [isPrefixOf_marker_self suggestionMarker (' ' :: v), if_pos rfl,
      show extractValue (suggestionMarker ++ ' ' :: v) = trim v from
        extractValue_marker "- **Suggestion**".data v (by decide), hv]

theorem parseLines_exampleLine (v : Str) (hv : trim v = v)
    (j : Issue) (ls : List Str) :
    parseLines (some j) ((exampleMarker ++ ' ' :: v) :: ls) =
      parseLines (some { j with exampleText := v }) ls := by
  have ht := trim_marker_line
    (show exampleMarker = '-' :: " **Example**:".data from rfl)
    (by decide) (by decide) hv
  rcases eq_or_ne v [] with rfl | hne
  · rw [if_pos rfl] at ht
    simp only [parseLines, ht]
    rw [show issueTypeMarker.isPrefixOf exampleMarker = false from by decide]
    simp only [Bool.false_eq_true, if_false]
    rw [show severityMarker.isPrefixOf exampleMarker = false from by decide]
    simp only [Bool.false_eq_true, if_false]
    rw [show lineMarker.isPrefixOf exampleMarker = false from by decide]
    simp only [Bool.false_eq_true, if_false]
    rw [show descriptionMarker.isPrefixOf exampleMarker = false from by decide]
    simp only [Bool.false_eq_true, if_false]
    rw [show suggestionMarker.isPrefixOf exampleMarker = false from by decide]
    simp only [Bool.false_eq_true, if_false]
    rw [show exampleMarker.isPrefixOf exampleMarker = true from by decide,
      if_pos rfl,
      show extractValue exampleMarker = [] from
        extractValue_marker_nil "- **Example**".data (by decide)]
  · rw [if_neg hne] at ht
    simp only [parseLines, ht]
    rw [isPrefixOf_false_marker issueTypeMarker exampleMarker
      (by decide) (by decide) v]
    simp only [Bool.false_eq_true, if_false]
    rw [isPrefixOf_false_marker severityMarker exampleMarker
      (by decide) (by decide) v]
    simp only [Bool.false_eq_true, if_false]
    rw [isPrefixOf_false_marker lineMarker exampleMarker
      (by decide) (by decide) v]
    simp only [Bool.false_eq_true, if_false]
    rw [isPrefixOf_false_marker descriptionMarker exampleMarker
      (by decide) (by decide) v]
    simp only [Bool.false_eq_true, if_false]
    rw [isPrefixOf_false_marker suggestionMarker exampleMarker
      (by decide) (by decide) v]
    simp only [Bool.false_eq_true, if_false]
    rw [isPrefixOf_marker_self exampleMarker (' ' :: v), if_pos rfl,
      show extractValue (exampleMarker ++ ' ' :: v) = trim v from
        extractValue_marker "- **Example**".data v (by decide), hv]

theorem sevEnum_facts :
    ∀ s ∈ ["CRITICAL".data, "HIGH".data, "MEDIUM".data, "LOW".data],
      trim s = s ∧ s ≠ [] ∧ '\n' ∉ s := by decide

theorem parseLines_renderIssue (i : SpecIssue) (hwf : WFSpecIssue i)
    (ls : List Str) :
    (∀ j : Issue, parseLines (some j) (specRenderIssue i ++ ls) =
      j :: parseLines (some (specToIssue i)) ls) ∧
    parseLines none (specRenderIssue i ++ ls) =
      parseLines (some (specToIssue i)) ls := by
  obtain ⟨⟨hty, -⟩, hsev, -, ⟨hde, -⟩, ⟨hsu, -⟩, ⟨hex, -⟩⟩ := hwf
  obtain ⟨hsevt, hsevne, -⟩ := sevEnum_facts i.severity hsev
  have happ : specRenderIssue i ++ ls =
      (issueTypeMarker ++ ' ' :: i.type) ::
        (severityMarker ++ ' ' :: i.severity) ::
          (lineMarker ++ ' ' ::
            (match i.line with
             | some n => natToChars n
             | none => "N/A".data)) ::
            (descriptionMarker ++ ' ' :: i.description) ::
              (suggestionMarker ++ ' ' :: i.suggestion) ::
                (exampleMarker ++ ' ' :: i.exampleText) :: ls := rfl
  have hlinefix : ∀ j : Issue,
      parseLines (some j)
        ((lineMarker ++ ' ' ::
          (match i.line with
           | some n => natToChars n
           | none => "N/A".data)) ::
          (descriptionMarker ++ ' ' :: i.description) ::
            (suggestionMarker ++ ' ' :: i.suggestion) ::
              (exampleMarker ++ ' ' :: i.exampleText) :: ls) =
        parseLines
          (some { j with line := i.line.map fun n => JSNum.num (n : Int) })
          ((descriptionMarker ++ ' ' :: i.description) ::
            (suggestionMarker ++ ' ' :: i.suggestion) ::
              (exampleMarker ++ ' ' :: i.exampleText) :: ls) := by
    intro j
    cases hli : i.line with
    | none =>
      rw [parseLines_lineLine "N/A".data (by decide) (by decide)]
      simp
    | some n =>
      rw [parseLines_lineLine (natToChars n) (trim_natToChars n) (natToChars_ne_nil n)]
      rw [if_pos (natToChars_ne_NA n), jsParseInt_natToChars]
      simp
  constructor
  · intro j
    rw [happ, parseLines_issueTypeLine_some i.type hty,
      parseLines_severityLine i.severity hsevt hsevne,
      hlinefix, parseLines_descriptionLine i.description hde,
      parseLines_suggestionLine i.suggestion hsu,
      parseLines_exampleLine i.exampleText hex]
    rfl
  · rw [happ, parseLines_issueTypeLine_none i.type hty,
      parseLines_severityLine i.severity hsevt hsevne,
      hlinefix, parseLines_descriptionLine i.description hde,
      parseLines_suggestionLine i.suggestion hsu,
      parseLines_exampleLine i.exampleText hex]
    rfl

theorem parseLines_renderAll (issues : List SpecIssue)
    (h : ∀ i ∈ issues, WFSpecIssue i) :
    (parseLines none (issues.map specRenderIssue).flatten =
      issues.map specToIssue) ∧
    (∀ j : Issue, parseLines (some j) (issues.map specRenderIssue).flatten =
      j :: issues.map specToIssue) := by
  induction issues with
  | nil => exact ⟨rfl, fun j => rfl⟩
  | cons i rest ih =>
    obtain ⟨ih1, ih2⟩ := ih fun x hx => h x (List.mem_cons_of_mem _ hx)
    have hri := parseLines_renderIssue i (h i (by simp))
      ((rest.map specRenderIssue).flatten)
    constructor
    · rw [List.map_cons, List.flatten_cons, hri.2, ih2 (specToIssue i),
        List.map_cons]
    · intro j
      rw [List.map_cons, List.flatten_cons, hri.1 j, ih2 (specToIssue i),
        List.map_cons]

theorem nl_not_mem_marker_line {m v : Str} (hm : '\n' ∉ m) (hv : '\n' ∉ v) :
    '\n' ∉ m ++ ' ' :: v := by
  intro hmem
  rcases List.mem_append.1 hmem with h1 | h2
  · exact hm h1
  · rcases List.mem_cons.1 h2 with h3 | h4
    · exact absurd h3 (by decide)
    · exact hv h4

/-- C1: rendering any list of well-formed synthetic issues through the
documented markers and applying `parseReview` recovers exactly as many
issues with identical field values, in the original order. -/
theorem parseReview_roundTrip (issues : List SpecIssue)
    (h : ∀ i ∈ issues, WFSpecIssue i) :
    (parseReview (specRenderResponse issues)).issues =
      issues.map specToIssue ∧
    (parseReview (specRenderResponse issues)).issues.length = issues.length := by
  have hmain : (parseReview (specRenderResponse issues)).issues =
      issues.map specToIssue := by
    show parseLines none (splitNl (specRenderResponse issues)) = _
    cases issues with
    | nil => rfl
    | cons i0 rest =>
      have hnl : ∀ l ∈ ((i0 :: rest).map specRenderIssue).flatten, '\n' ∉ l := by
        intro l hl
        rw [List.mem_flatten] at hl
        obtain ⟨lines, hlines, hmem⟩ := hl
        rw [List.mem_map] at hlines
        obtain ⟨i, hi, rfl⟩ := hlines
        obtain ⟨⟨-, hty⟩, hsev, -, ⟨-, hde⟩, ⟨-, hsu⟩, ⟨-, hex⟩⟩ := h i hi
        have hsevnl : '\n' ∉ i.severity := (sevEnum_facts i.severity hsev).2.2
        have hlv : '\n' ∉
            (match i.line with
             | some n => natToChars n
             | none => "N/A".data) := by
          cases i.line with
          | none => decide
          | some n => exact natToChars_nl_free n
        simp only [specRenderIssue, List.mem_cons, List.not_mem_nil,
          or_false] at hmem
        rcases hmem with rfl | rfl | rfl | rfl | rfl | rfl
        · exact nl_not_mem_marker_line (by decide) hty
        · exact nl_not_mem_marker_line (by decide) hsevnl
        · exact nl_not_mem_marker_line (by decide) hlv
        · exact nl_not_mem_marker_line (by decide) hde
        · exact nl_not_mem_marker_line (by decide) hsu
        · exact nl_not_mem_marker_line (by decide) hex
      have hne : ((i0 :: rest).map specRenderIssue).flatten ≠ [] := by
        simp [specRenderIssue]
      rw [specRenderResponse, splitNl_joinNl hnl hne]
      exact (parseLines_renderAll (i0 :: rest) h).1
  exact ⟨hmain, by rw [hmain, List.length_map]⟩

instance (i : SpecIssue) : Decidable (WFSpecIssue i) := by
  unfold WFSpecIssue WFField
  infer_instance

/-- Witness for C1's round-trip theorem on a concrete issue list. -/
theorem parseReview_roundTrip_witness :
    (parseReview (specRenderResponse
      [⟨"BUG".data, "HIGH".data, some 3, "off by one".data, "fix it".data,
        "x+1".data⟩,
       ⟨"STYLE".data, "LOW".data, none, [], [], []⟩])).issues =
      [⟨"BUG".data, "HIGH".data, some 3, "off by one".data, "fix it".data,
        "x+1".data⟩,
       ⟨"STYLE".data, "LOW".data, none, [], [], []⟩].map specToIssue ∧
    (parseReview (specRenderResponse
      [⟨"BUG".data, "HIGH".data, some 3, "off by one".data, "fix it".data,
        "x+1".data⟩,
       ⟨"STYLE".data, "LOW".data, none, [], [], []⟩])).issues.length = 2 :=
  parseReview_roundTrip _ (by decide)

end Reviewer
